import Mathlib

/-!
Verification of the Scheme-Interpreter repository against its specification.

The repository's single source file, `src/compiler.py`, contains the scanner
and recursive-descent parser of a C-like statement/expression language (the
spec's §1 "second, unrelated front end").  The Scheme-style pipeline that the
rest of the spec describes (tokenizer, reader, evaluator, environments) is not
present under `src/`; where a claim is decided by that missing code, the
definitions below are modelled from the spec and carry a doc comment saying so.

Conventions of the embedding:
- Python strings are `List Char`; machine text positions are `Nat`.
- Python's `float` literal values are modelled as exact rationals (`ℚ`) via
  `pyFloat`; the binary64 rounding of the host is not modelled, and no theorem
  below depends on a value that rounding would change.
- Python exceptions become `Except` values; an exception carries the state at
  the raise point, since Python's in-place mutation of `self` survives a raise.
- Loops are either well-founded recursion on the remaining input length or
  fuel-based recursion; fuel exhaustion is a distinguished error constructor
  that models nontermination and is proved unreachable where a claim needs it.
-/

namespace Compiler

/-- Token types, from the `TokenType` enum of src/compiler.py (lines 8-52). -/
inductive TokenType
| LEFT_PAREN | RIGHT_PAREN | LEFT_BRACE | RIGHT_BRACE | COMMA | DOT
| MINUS | PLUS | SEMICOLON | SLASH | STAR
| BANG | BANG_EQUAL | EQUAL | EQUAL_EQUAL
| GREATER | GREATER_EQUAL | LESS | LESS_EQUAL
| IDENTIFIER | STRING | NUMBER
| AND | OR | IF | ELSE | TRUE | FALSE | FUN | FOR | NIL | PRINT | RETURN | VAR | WHILE
| EOF
deriving DecidableEq, Repr

/-- Literal payloads attached to tokens: Python `str` values for STRING tokens
and Python `float` values for NUMBER tokens.  src/compiler.py never attaches
any other literal, and in particular has no integer literal kind. -/
inductive PyLit
| str (s : List Char)
| num (q : ℚ)
deriving DecidableEq, Repr

/-- The `Token` dataclass of src/compiler.py (lines 54-59): type, lexeme,
optional literal, and the line number. -/
structure Token where
  type : TokenType
  lexeme : List Char
  literal : Option PyLit
  line : Nat
deriving DecidableEq, Repr

/-- Python slice `source[a:b]` on a character list. -/
def slice (src : List Char) (a b : Nat) : List Char :=
  (src.drop a).take (b - a)

/-- Number of newline characters in a character list. -/
def nlCount (l : List Char) : Nat := l.countP (fun c => c == '\n')

/-- Association-list lookup, modelling Python `dict.get` on the small literal
dictionaries of the source (scanner keywords, environments). -/
def assocFind {α β : Type} [DecidableEq α] : List (α × β) → α → Option β
| [], _ => none
| (a, b) :: r, k => if a = k then some b else assocFind r k

/-- Decimal value of a digit string (used by `pyFloat`). -/
def digitsVal (l : List Char) : Nat :=
  l.foldl (fun a c => 10 * a + (c.toNat - 48)) 0

/-- Python `float(s)` restricted to the strings `Scanner.number` produces
(digits optionally followed by a dot and digits).  The value is the exact
decimal rational; host binary64 rounding is not modelled, and theorems use
`pyFloat` only for kind-level facts and exactly representable inputs. -/
def pyFloat (l : List Char) : ℚ :=
  let ip := l.takeWhile Char.isDigit
  let rest := l.dropWhile Char.isDigit
  match rest with
  | '.' :: fp => (digitsVal ip : ℚ) + (digitsVal fp : ℚ) / (10 : ℚ) ^ fp.length
  | _ => (digitsVal ip : ℚ)

/-- Scanner state: the fields of the `Scanner` class of src/compiler.py
(lines 61-83).  The keyword dictionary is a constant, `keywords` below. -/
structure Scanner where
  source : List Char
  tokens : List Token
  start : Nat
  current : Nat
  line : Nat
deriving Repr

/-- Scanner errors.  src/compiler.py raises `SyntaxError` with an f-string
message naming the line; the two raise sites are modelled as two constructors
carrying the line.  `outOfFuel` models nontermination of the scan loop and is
proved unreachable (see the claim C8 theorem). -/
inductive ScanErr
| unexpectedChar (line : Nat)
| unterminatedString (line : Nat)
| outOfFuel
deriving DecidableEq, Repr

/-- `Scanner.is_at_end` (line 185). -/
def Scanner.isAtEnd (st : Scanner) : Bool := st.source.length ≤ st.current

/-- `Scanner.peek` (line 168): the current character, or NUL at end of input. -/
def Scanner.peek (st : Scanner) : Char :=
  if st.isAtEnd then '\x00' else st.source.getD st.current '\x00'

/-- `Scanner.peek_next` (line 171). -/
def Scanner.peekNext (st : Scanner) : Char :=
  if st.source.length ≤ st.current + 1 then '\x00' else st.source.getD (st.current + 1) '\x00'

/-- `Scanner.is_digit` (line 179): Python `str.isdigit`; Unicode digits beyond
ASCII are not modelled and no theorem depends on them. -/
def Scanner.isDigit (c : Char) : Bool := c.isDigit

/-- `Scanner.is_alpha` (line 176): Python `str.isalpha` or underscore; Unicode
letters beyond ASCII are not modelled and no theorem depends on them. -/
def Scanner.isAlpha (c : Char) : Bool := c.isAlpha || c == '_'

/-- `Scanner.is_alphanumeric` (line 182). -/
def Scanner.isAlphanumeric (c : Char) : Bool := Scanner.isAlpha c || Scanner.isDigit c

/-- `Scanner.advance` (line 188): step the cursor and return the character it
moved over.  The source would raise IndexError out of bounds; every call site
is guarded, so the total model returns NUL there. -/
def Scanner.advance (st : Scanner) : Char × Scanner :=
  (st.source.getD st.current '\x00', { st with current := st.current + 1 })

/-- `Scanner.match` (line 162); renamed because `match` is a Lean keyword. -/
def Scanner.matchCh (st : Scanner) (expected : Char) : Bool × Scanner :=
  if st.isAtEnd then (false, st)
  else if st.source.getD st.current '\x00' ≠ expected then (false, st)
  else (true, { st with current := st.current + 1 })

/-- `Scanner.add_token` (line 192): append a token whose lexeme is
`source[start:current]`, stamped with the current line. -/
def Scanner.addToken (st : Scanner) (ty : TokenType) (lit : Option PyLit) : Scanner :=
  { st with tokens := st.tokens ++ [⟨ty, slice st.source st.start st.current, lit, st.line⟩] }

/-- The character-consuming while-loops of the scanner (the string body loop
line 129, the digit loops lines 142 and 147, the identifier loop line 154 and
the comment loop line 113) all advance while a predicate holds of `peek` and
the input is not exhausted, bumping the line counter on each newline consumed.
For the digit/identifier loops the source omits the explicit end-of-input
conjunct; it is redundant there because `peek` yields NUL at the end and NUL
satisfies neither predicate.  The newline bump never fires in the loops whose
predicate rejects a newline, matching the source loops that do not touch
`self.line`. -/
def Scanner.chompFuel (p : Char → Bool) : Nat → Scanner → Scanner
| 0, st => st
| fuel + 1, st =>
  if p st.peek = true ∧ st.isAtEnd = false then
    Scanner.chompFuel p fuel { st with
      line := if st.peek = '\n' then st.line + 1 else st.line,
      current := st.current + 1 }
  else st

/-- The loop entry point.  Each iteration's guard keeps the cursor strictly
inside the source, so the loop runs at most `length - current` times and the
fuel below never runs out (`chompFuel_spec` is always applied with its fuel
hypothesis satisfied); the fuelled recursion only makes the function
kernel-computable. -/
def Scanner.chomp (p : Char → Bool) (st : Scanner) : Scanner :=
  Scanner.chompFuel p (st.source.length - st.current + 1) st

/-- `Scanner.string` (lines 128-139). -/
def Scanner.scanString (st : Scanner) : Except ScanErr Scanner :=
  let st1 := Scanner.chomp (fun c => !(c == '"')) st
  if st1.isAtEnd then .error (.unterminatedString st1.line)
  else
    let st2 := (st1.advance).2
    let value := slice st2.source (st2.start + 1) (st2.current - 1)
    .ok (st2.addToken .STRING (some (.str value)))

/-- `Scanner.number` (lines 141-151): scan digits, optionally a dot followed
by digits, then add one NUMBER token whose literal is `float(...)` of the
whole lexeme.  No integer parse exists in the source. -/
def Scanner.scanNumber (st : Scanner) : Scanner :=
  let st1 := Scanner.chomp Scanner.isDigit st
  let st2 :=
    if st1.peek = '.' ∧ Scanner.isDigit st1.peekNext then
      Scanner.chomp Scanner.isDigit { st1 with current := st1.current + 1 }
    else st1
  st2.addToken .NUMBER (some (.num (pyFloat (slice st2.source st2.start st2.current))))

/-- The keyword dictionary of `Scanner.__init__` (lines 69-83). -/
def keywords : List (List Char × TokenType) :=
  [(['a','n','d'], .AND), (['o','r'], .OR), (['i','f'], .IF), (['e','l','s','e'], .ELSE),
   (['t','r','u','e'], .TRUE), (['f','a','l','s','e'], .FALSE), (['f','u','n'], .FUN),
   (['f','o','r'], .FOR), (['n','i','l'], .NIL), (['p','r','i','n','t'], .PRINT),
   (['r','e','t','u','r','n'], .RETURN), (['v','a','r'], .VAR), (['w','h','i','l','e'], .WHILE)]

/-- `Scanner.identifier` (lines 153-159). -/
def Scanner.scanIdentifier (st : Scanner) : Scanner :=
  let st1 := Scanner.chomp Scanner.isAlphanumeric st
  let text := slice st1.source st1.start st1.current
  st1.addToken ((assocFind keywords text).getD .IDENTIFIER) none

/-- The dispatch of `Scanner.scan_token` (lines 93-126) on the consumed
character `c`, applied to the state after the leading `advance`.  The Python
`match` statement tries its literal cases in order; the equivalent if-chain
is used here. -/
def Scanner.dispatchChar (c : Char) (st1 : Scanner) : Except ScanErr Scanner :=
  if c = '(' then .ok (st1.addToken .LEFT_PAREN none)
  else if c = ')' then .ok (st1.addToken .RIGHT_PAREN none)
  else if c = '{' then .ok (st1.addToken .LEFT_BRACE none)
  else if c = '}' then .ok (st1.addToken .RIGHT_BRACE none)
  else if c = ',' then .ok (st1.addToken .COMMA none)
  else if c = '.' then .ok (st1.addToken .DOT none)
  else if c = '-' then .ok (st1.addToken .MINUS none)
  else if c = '+' then .ok (st1.addToken .PLUS none)
  else if c = ';' then .ok (st1.addToken .SEMICOLON none)
  else if c = '*' then .ok (st1.addToken .STAR none)
  else if c = '!' then
    let r := st1.matchCh '='
    .ok (r.2.addToken (if r.1 then .BANG_EQUAL else .BANG) none)
  else if c = '=' then
    let r := st1.matchCh '='
    .ok (r.2.addToken (if r.1 then .EQUAL_EQUAL else .EQUAL) none)
  else if c = '<' then
    let r := st1.matchCh '='
    .ok (r.2.addToken (if r.1 then .LESS_EQUAL else .LESS) none)
  else if c = '>' then
    let r := st1.matchCh '='
    .ok (r.2.addToken (if r.1 then .GREATER_EQUAL else .GREATER) none)
  else if c = '/' then
    let r := st1.matchCh '/'
    if r.1 then .ok (Scanner.chomp (fun ch => !(ch == '\n')) r.2)
    else .ok (r.2.addToken .SLASH none)
  else if c = ' ' ∨ c = '\r' ∨ c = '\t' then .ok st1
  else if c = '\n' then .ok { st1 with line := st1.line + 1 }
  else if c = '"' then st1.scanString
  else if Scanner.isDigit c then .ok st1.scanNumber
  else if Scanner.isAlpha c then .ok st1.scanIdentifier
  else .error (.unexpectedChar st1.line)

/-- `Scanner.scan_token` (lines 93-126): consume one character with `advance`
and dispatch on it. -/
def Scanner.scanToken (st : Scanner) : Except ScanErr Scanner :=
  Scanner.dispatchChar (st.advance).1 (st.advance).2

/-- The while-loop of `Scanner.scan_tokens` (lines 85-91), fuelled.  Each
iteration resets `start` to `current` and scans one token. -/
def Scanner.scanLoop : Nat → Scanner → Except ScanErr Scanner
| 0, _ => .error .outOfFuel
| fuel + 1, st =>
  if st.isAtEnd then .ok st
  else
    match Scanner.scanToken { st with start := st.current } with
    | .error e => .error e
    | .ok st' => Scanner.scanLoop fuel st'

/-- `Scanner.scan_tokens` (lines 85-91): run the scan loop from the initial
state and append the final EOF token.  The fuel `length + 1` is proved
sufficient (claim C8). -/
def scanTokens (src : List Char) : Except ScanErr (List Token) :=
  match Scanner.scanLoop (src.length + 1) ⟨src, [], 0, 0, 1⟩ with
  | .error e => .error e
  | .ok st => .ok (st.tokens ++ [⟨.EOF, [], none, st.line⟩])

/-- Literal values stored in AST `Literal` nodes: `Parser.primary` creates
`Literal(False)`, `Literal(True)`, `Literal(None)` and `Literal(tok.literal)`
(src/compiler.py lines 408-413), so the runtime domain is booleans, `None`,
floats and strings. -/
inductive LitVal
| b (v : Bool)
| nil
| num (q : ℚ)
| str (s : List Char)
deriving DecidableEq, Repr

/-- Conversion from a token's literal slot to a `Literal` node value.  A
`None` slot and Python's literal `None` coincide, as they do in the source. -/
def litOfPy : Option PyLit → LitVal
| none => .nil
| some (.num q) => .num q
| some (.str s) => .str s

/-- AST expression nodes (src/compiler.py lines 196-226). -/
inductive LoxExpr
| binary (left : LoxExpr) (op : Token) (right : LoxExpr)
| grouping (e : LoxExpr)
| literalE (v : LitVal)
| unary (op : Token) (right : LoxExpr)
| variableE (name : Token)
| assign (name : Token) (value : LoxExpr)
deriving Repr

/-- AST statement nodes (src/compiler.py lines 228-258).  `Parser.block`
collects `Parser.declaration()` results, which are `None` after a recovered
syntax error, so a block holds `Option` statements, matching the runtime
values rather than the (inaccurate) type hints. -/
inductive LoxStmt
| expression (e : LoxExpr)
| print (e : LoxExpr)
| var (name : Token) (ini : Option LoxExpr)
| block (stmts : List (Option LoxStmt))
| ifS (cond : LoxExpr) (thenBranch : LoxStmt) (elseBranch : Option LoxStmt)
| whileS (cond : LoxExpr) (body : LoxStmt)
deriving Repr

/-- Parser state: the fields of the `Parser` class (lines 261-264). -/
structure PState where
  tokens : List Token
  current : Nat
deriving Repr

/-- Parser errors.  `SyntaxError` carries the message and the state at the
raise point, because Python's in-place mutation of the parser survives a
raise and the handler in `Parser.declaration` resumes from that state.
`outOfFuel` models nontermination of the recursive descent. -/
inductive PErr
| syntaxErr (msg : String) (st : PState)
| outOfFuel
deriving Repr

/-- Default token used to model Python list indexing totally; the claim C9
theorem shows `Parser.peek`'s index stays in bounds, so this default is never
what `peek` actually returns on scanner-produced token lists. -/
def dfltTok : Token := ⟨.EOF, [], none, 0⟩

/-- `Parser.peek` (line 444): `tokens[current]`. -/
def Parser.peek (st : PState) : Token := st.tokens.getD st.current dfltTok

/-- `Parser.previous` (line 447): `tokens[current - 1]`, including Python's
wrap-around to the last element when `current` is `0`. -/
def Parser.previous (st : PState) : Token :=
  if st.current = 0 then st.tokens.getLastD dfltTok
  else st.tokens.getD (st.current - 1) dfltTok

/-- `Parser.is_at_end` (line 441). -/
def Parser.isAtEnd (st : PState) : Bool := (Parser.peek st).type == .EOF

/-- `Parser.advance` (line 436): step unless at end, then return `previous`.
This is the only place the parser's cursor is ever written (the single
`self.current += 1` of the class), so every cursor the parser reaches is an
iterate of this function from `current = 0`. -/
def Parser.advance (st : PState) : Token × PState :=
  let st' := if Parser.isAtEnd st then st else { st with current := st.current + 1 }
  (Parser.previous st', st')

/-- Iterated `Parser.advance`, used to state the claim C9 bound over every
cursor the parser can reach. -/
def Parser.advanceIter : Nat → PState → PState
| 0, st => st
| n + 1, st => Parser.advanceIter n (Parser.advance st).2

/-- `Parser.check` (line 433). -/
def Parser.check (st : PState) (ty : TokenType) : Bool :=
  if Parser.isAtEnd st then false else (Parser.peek st).type == ty

/-- `Parser.match` (line 426), renamed because `match` is a Lean keyword; the
variadic `*types` is a list tried in order. -/
def Parser.matchT (st : PState) : List TokenType → Bool × PState
| [] => (false, st)
| ty :: rest =>
  if Parser.check st ty then (true, (Parser.advance st).2) else Parser.matchT st rest

/-- `Parser.consume` (line 450). -/
def Parser.consume (st : PState) (ty : TokenType) (msg : String) :
    Except PErr (Token × PState) :=
  if Parser.check st ty then .ok (Parser.advance st) else .error (.syntaxErr msg st)

def msgExpectVarName : String := "Expect variable name."
def msgSemiAfterVarDecl : String := "Expect ';' after variable declaration."
def msgLParenAfterIf : String := "Expect '(' after 'if'."
def msgRParenAfterIfCond : String := "Expect ')' after if condition."
def msgSemiAfterValue : String := "Expect ';' after value."
def msgLParenAfterWhile : String := "Expect '(' after 'while'."
def msgRParenAfterCond : String := "Expect ')' after condition."
def msgRBraceAfterBlock : String := "Expect '\x7d' after block."
def msgSemiAfterExpr : String := "Expect ';' after expression."
def msgInvalidAssignTarget : String := "Invalid assignment target."
def msgRParenAfterExpr : String := "Expect ')' after expression."
def msgExpectExpression : String := "Expect expression."

/-- Modelled from the spec: src/compiler.py is cut off in the middle of
`Parser.synchronize` (line 462 ends with the bare `match self`), and the spec
(§1) treats this whole front end as an excluded artifact, so it does not
describe the missing loop body.  The statement-keyword cases below are the
conventional completion of panic-mode synchronization.  Only the part that is
present in the source (the leading `advance` and the semicolon check) is
relied on by any theorem; the claim C1 counterexample is chosen so that the
modelled region is never reached. -/
def syncKeywords : List TokenType := [.FUN, .VAR, .FOR, .IF, .WHILE, .PRINT, .RETURN]

/-- The while-loop of `Parser.synchronize` (lines 458 onward); see
`syncKeywords` for the modelled part.  It raises nothing. -/
def Parser.syncLoop : Nat → PState → Except PErr PState
| 0, _ => .error .outOfFuel
| fuel + 1, st =>
  if Parser.isAtEnd st then .ok st
  else if (Parser.previous st).type == .SEMICOLON then .ok st
  else if syncKeywords.contains (Parser.peek st).type then .ok st
  else Parser.syncLoop fuel (Parser.advance st).2

/-- `Parser.synchronize` (lines 455 onward): advance once, then skip to a
likely statement boundary. -/
def Parser.synchronize (fuel : Nat) (st : PState) : Except PErr PState :=
  Parser.syncLoop fuel (Parser.advance st).2

mutual

/-- `Parser.declaration` (lines 272-279): try a declaration or statement and
on `SyntaxError` catch it, synchronize, and yield `None`. -/
def Parser.declaration : Nat → PState → Except PErr (Option LoxStmt × PState)
| 0, _ => .error .outOfFuel
| fuel + 1, st =>
  let r := Parser.matchT st [.VAR]
  match (if r.1 then Parser.varDeclaration fuel r.2 else Parser.statement fuel r.2) with
  | .ok (s, st2) => .ok (some s, st2)
  | .error (.syntaxErr _ stE) =>
    match Parser.synchronize fuel stE with
    | .ok st3 => .ok (none, st3)
    | .error e => .error e
  | .error .outOfFuel => .error .outOfFuel

/-- `Parser.var_declaration` (lines 281-289). -/
def Parser.varDeclaration : Nat → PState → Except PErr (LoxStmt × PState)
| 0, _ => .error .outOfFuel
| fuel + 1, st => do
  let (name, st1) ← Parser.consume st .IDENTIFIER msgExpectVarName
  let r := Parser.matchT st1 [.EQUAL]
  let iniRes : Except PErr (Option LoxExpr × PState) :=
    if r.1 then (Parser.expression fuel r.2).map (fun p => (some p.1, p.2)) else .ok (none, r.2)
  match iniRes with
  | .error e => .error e
  | .ok (ini, st2) => do
    let (_, st3) ← Parser.consume st2 .SEMICOLON msgSemiAfterVarDecl
    .ok (.var name ini, st3)

/-- `Parser.statement` (lines 291-300). -/
def Parser.statement : Nat → PState → Except PErr (LoxStmt × PState)
| 0, _ => .error .outOfFuel
| fuel + 1, st =>
  let r1 := Parser.matchT st [.IF]
  if r1.1 then Parser.ifStatement fuel r1.2 else
  let r2 := Parser.matchT r1.2 [.PRINT]
  if r2.1 then Parser.printStatement fuel r2.2 else
  let r3 := Parser.matchT r2.2 [.WHILE]
  if r3.1 then Parser.whileStatement fuel r3.2 else
  let r4 := Parser.matchT r3.2 [.LEFT_BRACE]
  if r4.1 then (Parser.blockLoop fuel r4.2).map (fun p => (.block p.1, p.2)) else
  Parser.expressionStatement fuel r4.2

/-- `Parser.if_statement` (lines 302-312). -/
def Parser.ifStatement : Nat → PState → Except PErr (LoxStmt × PState)
| 0, _ => .error .outOfFuel
| fuel + 1, st => do
  let (_, st1) ← Parser.consume st .LEFT_PAREN msgLParenAfterIf
  let (cond, st2) ← Parser.expression fuel st1
  let (_, st3) ← Parser.consume st2 .RIGHT_PAREN msgRParenAfterIfCond
  let (thenB, st4) ← Parser.statement fuel st3
  let r := Parser.matchT st4 [.ELSE]
  if r.1 then do
    let (elseB, st5) ← Parser.statement fuel r.2
    .ok (.ifS cond thenB (some elseB), st5)
  else .ok (.ifS cond thenB none, r.2)

/-- `Parser.print_statement` (lines 314-317). -/
def Parser.printStatement : Nat → PState → Except PErr (LoxStmt × PState)
| 0, _ => .error .outOfFuel
| fuel + 1, st => do
  let (value, st1) ← Parser.expression fuel st
  let (_, st2) ← Parser.consume st1 .SEMICOLON msgSemiAfterValue
  .ok (.print value, st2)

/-- `Parser.while_statement` (lines 319-325). -/
def Parser.whileStatement : Nat → PState → Except PErr (LoxStmt × PState)
| 0, _ => .error .outOfFuel
| fuel + 1, st => do
  let (_, st1) ← Parser.consume st .LEFT_PAREN msgLParenAfterWhile
  let (cond, st2) ← Parser.expression fuel st1
  let (_, st3) ← Parser.consume st2 .RIGHT_PAREN msgRParenAfterCond
  let (body, st4) ← Parser.statement fuel st3
  .ok (.whileS cond body, st4)

/-- The collection loop of `Parser.block` (lines 327-333), followed by the
closing-brace consume. -/
def Parser.blockLoop : Nat → PState → Except PErr (List (Option LoxStmt) × PState)
| 0, _ => .error .outOfFuel
| fuel + 1, st =>
  if ¬ Parser.check st .RIGHT_BRACE ∧ Parser.isAtEnd st = false then do
    let (s, st1) ← Parser.declaration fuel st
    let (rest, st2) ← Parser.blockLoop fuel st1
    .ok (s :: rest, st2)
  else do
    let (_, st1) ← Parser.consume st .RIGHT_BRACE msgRBraceAfterBlock
    .ok ([], st1)

/-- `Parser.expression_statement` (lines 335-338). -/
def Parser.expressionStatement : Nat → PState → Except PErr (LoxStmt × PState)
| 0, _ => .error .outOfFuel
| fuel + 1, st => do
  let (e, st1) ← Parser.expression fuel st
  let (_, st2) ← Parser.consume st1 .SEMICOLON msgSemiAfterExpr
  .ok (.expression e, st2)

/-- `Parser.expression` (lines 340-341). -/
def Parser.expression : Nat → PState → Except PErr (LoxExpr × PState)
| 0, _ => .error .outOfFuel
| fuel + 1, st => Parser.assignment fuel st

/-- `Parser.assignment` (lines 343-356); the `equals` token bound by the
source is unused there and is not bound here. -/
def Parser.assignment : Nat → PState → Except PErr (LoxExpr × PState)
| 0, _ => .error .outOfFuel
| fuel + 1, st => do
  let (expr, st1) ← Parser.equality fuel st
  let r := Parser.matchT st1 [.EQUAL]
  if r.1 then do
    let (value, st2) ← Parser.assignment fuel r.2
    match expr with
    | .variableE name => .ok (.assign name value, st2)
    | _ => .error (.syntaxErr msgInvalidAssignTarget st2)
  else .ok (expr, r.2)

/-- `Parser.equality` (lines 358-366). -/
def Parser.equality : Nat → PState → Except PErr (LoxExpr × PState)
| 0, _ => .error .outOfFuel
| fuel + 1, st => do
  let (e, st1) ← Parser.comparison fuel st
  Parser.equalityLoop fuel e st1

/-- The while-loop of `Parser.equality`. -/
def Parser.equalityLoop : Nat → LoxExpr → PState → Except PErr (LoxExpr × PState)
| 0, _, _ => .error .outOfFuel
| fuel + 1, e, st =>
  let r := Parser.matchT st [.BANG_EQUAL, .EQUAL_EQUAL]
  if r.1 then do
    let op := Parser.previous r.2
    let (right, st1) ← Parser.comparison fuel r.2
    Parser.equalityLoop fuel (.binary e op right) st1
  else .ok (e, r.2)

/-- `Parser.comparison` (lines 368-377). -/
def Parser.comparison : Nat → PState → Except PErr (LoxExpr × PState)
| 0, _ => .error .outOfFuel
| fuel + 1, st => do
  let (e, st1) ← Parser.term fuel st
  Parser.comparisonLoop fuel e st1

/-- The while-loop of `Parser.comparison`. -/
def Parser.comparisonLoop : Nat → LoxExpr → PState → Except PErr (LoxExpr × PState)
| 0, _, _ => .error .outOfFuel
| fuel + 1, e, st =>
  let r := Parser.matchT st [.GREATER, .GREATER_EQUAL, .LESS, .LESS_EQUAL]
  if r.1 then do
    let op := Parser.previous r.2
    let (right, st1) ← Parser.term fuel r.2
    Parser.comparisonLoop fuel (.binary e op right) st1
  else .ok (e, r.2)

/-- `Parser.term` (lines 379-387). -/
def Parser.term : Nat → PState → Except PErr (LoxExpr × PState)
| 0, _ => .error .outOfFuel
| fuel + 1, st => do
  let (e, st1) ← Parser.factor fuel st
  Parser.termLoop fuel e st1

/-- The while-loop of `Parser.term`. -/
def Parser.termLoop : Nat → LoxExpr → PState → Except PErr (LoxExpr × PState)
| 0, _, _ => .error .outOfFuel
| fuel + 1, e, st =>
  let r := Parser.matchT st [.MINUS, .PLUS]
  if r.1 then do
    let op := Parser.previous r.2
    let (right, st1) ← Parser.factor fuel r.2
    Parser.termLoop fuel (.binary e op right) st1
  else .ok (e, r.2)

/-- `Parser.factor` (lines 389-397). -/
def Parser.factor : Nat → PState → Except PErr (LoxExpr × PState)
| 0, _ => .error .outOfFuel
| fuel + 1, st => do
  let (e, st1) ← Parser.unary fuel st
  Parser.factorLoop fuel e st1

/-- The while-loop of `Parser.factor`. -/
def Parser.factorLoop : Nat → LoxExpr → PState → Except PErr (LoxExpr × PState)
| 0, _, _ => .error .outOfFuel
| fuel + 1, e, st =>
  let r := Parser.matchT st [.SLASH, .STAR]
  if r.1 then do
    let op := Parser.previous r.2
    let (right, st1) ← Parser.unary fuel r.2
    Parser.factorLoop fuel (.binary e op right) st1
  else .ok (e, r.2)

/-- `Parser.unary` (lines 399-405). -/
def Parser.unary : Nat → PState → Except PErr (LoxExpr × PState)
| 0, _ => .error .outOfFuel
| fuel + 1, st =>
  let r := Parser.matchT st [.BANG, .MINUS]
  if r.1 then do
    let op := Parser.previous r.2
    let (right, st1) ← Parser.unary fuel r.2
    .ok (.unary op right, st1)
  else Parser.primary fuel r.2

/-- `Parser.primary` (lines 407-423). -/
def Parser.primary : Nat → PState → Except PErr (LoxExpr × PState)
| 0, _ => .error .outOfFuel
| fuel + 1, st =>
  let r1 := Parser.matchT st [.FALSE]
  if r1.1 then .ok (.literalE (.b false), r1.2) else
  let r2 := Parser.matchT r1.2 [.TRUE]
  if r2.1 then .ok (.literalE (.b true), r2.2) else
  let r3 := Parser.matchT r2.2 [.NIL]
  if r3.1 then .ok (.literalE .nil, r3.2) else
  let r4 := Parser.matchT r3.2 [.NUMBER, .STRING]
  if r4.1 then .ok (.literalE (litOfPy (Parser.previous r4.2).literal), r4.2) else
  let r5 := Parser.matchT r4.2 [.IDENTIFIER]
  if r5.1 then .ok (.variableE (Parser.previous r5.2), r5.2) else
  let r6 := Parser.matchT r5.2 [.LEFT_PAREN]
  if r6.1 then do
    let (e, st1) ← Parser.expression fuel r6.2
    let (_, st2) ← Parser.consume st1 .RIGHT_PAREN msgRParenAfterExpr
    .ok (.grouping e, st2)
  else .error (.syntaxErr msgExpectExpression r6.2)

end

/-- The while-loop of `Parser.parse` (lines 266-270). -/
def Parser.parseLoop : Nat → PState → Except PErr (List (Option LoxStmt) × PState)
| 0, _ => .error .outOfFuel
| fuel + 1, st =>
  if Parser.isAtEnd st then .ok ([], st)
  else do
    let (s, st1) ← Parser.declaration fuel st
    let (rest, st2) ← Parser.parseLoop fuel st1
    .ok (s :: rest, st2)

/-- `Parser.parse` (lines 266-270), from a fresh parser on a token list. -/
def Parser.parse (fuel : Nat) (tokens : List Token) :
    Except PErr (List (Option LoxStmt)) :=
  (Parser.parseLoop fuel ⟨tokens, 0⟩).map Prod.fst

end Compiler

namespace Scheme

/-- Modelled from the spec: the Scheme-style pipeline of §2-§4 is not present
under src/ (only the unrelated C-like front end is), so the tokenizer,
reader and evaluator in this namespace are built from the spec's words.
Spec §4.1: whitespace in the sense of Python `str.split` (space, tab,
newline, carriage return, vertical tab, form feed; Unicode spaces are not
modelled and no claim depends on them). -/
def isSpaceCh (c : Char) : Bool :=
  (c == ' ') || (c == '\t') || (c == '\n') || (c == '\r') || (c == '\x0b') || (c == '\x0c')

/-- One step of whitespace splitting (a `foldr` rendering of a standard
split-on-whitespace). -/
def splitStep (c : Char) (p : List Char × List (List Char)) :
    List Char × List (List Char) :=
  if isSpaceCh c then ([], if p.1 = [] then p.2 else p.1 :: p.2)
  else (c :: p.1, p.2)

/-- Split a character list on whitespace, dropping empty words. -/
def splitWs (l : List Char) : List (List Char) :=
  let p := l.foldr splitStep ([], [])
  if p.1 = [] then p.2 else p.1 :: p.2

/-- Modelled from the spec, §4.1: "insert explicit separators around every
parenthesis character, then split on whitespace".  Tokens are the resulting
words. -/
def tokenize (src : List Char) : List (List Char) :=
  splitWs (src.flatMap (fun c => if c = '(' ∨ c = ')' then [' ', c, ' '] else [c]))

/-- Modelled from the spec, §7: the error taxonomy of the Scheme pipeline.
`OutOfFuel` is an artifact of fuelled recursion modelling nontermination. -/
inductive SchemeErr
| UnexpectedEndOfInput
| MissingClosingParen
| UnexpectedClosingParen
| UnboundSymbol (s : List Char)
| MalformedSpecialForm
| ArityMismatch
| InvalidExpression
| OutOfFuel
deriving DecidableEq, Repr

/-- Modelled from the spec, §3: the Expression AST — numbers (integers and
floats are distinct runtime kinds), symbols, and lists. -/
inductive SExpr
| intE (n : ℤ)
| floatE (q : ℚ)
| symE (s : List Char)
| listE (es : List SExpr)
deriving Repr

/-- Digit-string value for the atom parsers. -/
def digitsNat? (l : List Char) : Option Nat :=
  if l ≠ [] ∧ l.all Char.isDigit then some (Compiler.digitsVal l) else none

/-- Modelled from the spec, §4.2: the "integer parse" attempted first on an
atom (Python `int(...)`: optional sign then digits; other accepted Python
forms such as underscores or surrounding whitespace cannot occur in a token
and are not modelled). -/
def parseIntAtom (l : List Char) : Option ℤ :=
  match l with
  | '-' :: r => (digitsNat? r).map (fun n => -(n : ℤ))
  | '+' :: r => (digitsNat? r).map (fun n => (n : ℤ))
  | _ => (digitsNat? l).map (fun n => (n : ℤ))

/-- Unsigned decimal forms accepted by the floating-point atom parse. -/
def parseFrac (l : List Char) : Option ℚ :=
  let ip := l.takeWhile Char.isDigit
  let rest := l.dropWhile Char.isDigit
  match rest with
  | [] => if ip ≠ [] then some ((Compiler.digitsVal ip : ℚ)) else none
  | '.' :: fp =>
    if (ip ≠ [] ∨ fp ≠ []) ∧ fp.all Char.isDigit then
      some ((Compiler.digitsVal ip : ℚ) + (Compiler.digitsVal fp : ℚ) / (10 : ℚ) ^ fp.length)
    else none
  | _ => none

/-- Modelled from the spec, §4.2: the "floating-point parse" attempted second
(decimal forms with optional sign; exponent and inf/nan forms of Python
`float` are not modelled and no claim depends on them).  Values are exact
rationals, as for the scanner's `pyFloat`. -/
def parseFloatAtom (l : List Char) : Option ℚ :=
  match l with
  | '-' :: r => (parseFrac r).map (fun q => -q)
  | '+' :: r => parseFrac r
  | _ => parseFrac l

/-- Modelled from the spec, §4.2: "attempt integer parse, then floating-point
parse, then fall back to treating the token as a Symbol". -/
def parseAtom (t : List Char) : SExpr :=
  match parseIntAtom t with
  | some n => .intE n
  | none =>
    match parseFloatAtom t with
    | some q => .floatE q
    | none => .symE t

mutual

/-- Modelled from the spec, §4.2: read one Expression from the front of the
token queue.  Empty queue fails with `UnexpectedEndOfInput`; a `)` fails with
`UnexpectedClosingParen`; a `(` opens a list read. -/
def readExpr : Nat → List (List Char) → Except SchemeErr (SExpr × List (List Char))
| 0, _ => .error .OutOfFuel
| _ + 1, [] => .error .UnexpectedEndOfInput
| fuel + 1, t :: rest =>
  if t = ['('] then readListRest fuel rest []
  else if t = [')'] then .error .UnexpectedClosingParen
  else .ok (parseAtom t, rest)

/-- Modelled from the spec, §4.2: after a `(`, repeatedly read
sub-expressions until `)` (consume it and return the List) or exhaustion of
the queue, which fails with `MissingClosingParen`. -/
def readListRest : Nat → List (List Char) → List SExpr →
    Except SchemeErr (SExpr × List (List Char))
| 0, _, _ => .error .OutOfFuel
| _ + 1, [], _ => .error .MissingClosingParen
| fuel + 1, t :: rest, acc =>
  if t = [')'] then .ok (.listE acc, rest)
  else
    match readExpr fuel (t :: rest) with
    | .error e => .error e
    | .ok (e, rest') => readListRest fuel rest' (acc ++ [e])

end

/-- Modelled from the spec, §3/§4.4: runtime values — a datum (number,
symbol or list, e.g. as returned by `quote`), a Closure (parameters, body
sequence, and the index of the captured defining Environment), or the
no-value marker. -/
inductive SchemeVal
| datum (e : SExpr)
| closure (params : List (List Char)) (body : List SExpr) (env : Nat)
| noValue
deriving Repr

/-- Modelled from the spec, §3/§9: one Environment record — bindings plus an
optional parent reference.  Following §9, environments live in an arena and
are referenced by index, which reproduces the required sharing semantics of
the mutable parent-linked chain. -/
structure Frame where
  bindings : List (List Char × SchemeVal)
  parent : Option Nat
deriving Repr

/-- Modelled from the spec, §4.3: `lookup` walks the chain innermost-out and
fails with `UnboundSymbol` when no scope binds the symbol.  Fuel bounds the
parent walk; every reachable store links parents to earlier frames, so the
fuel `store.length + 1` used by the evaluator never runs out there. -/
def lookupVar : Nat → List Frame → Nat → List Char → Except SchemeErr SchemeVal
| 0, _, _, _ => .error .OutOfFuel
| fuel + 1, store, env, s =>
  match store.get? env with
  | none => .error (.UnboundSymbol s)
  | some fr =>
    match Compiler.assocFind fr.bindings s with
    | some v => .ok v
    | none =>
      match fr.parent with
      | some p => lookupVar fuel store p s
      | none => .error (.UnboundSymbol s)

/-- Modelled from the spec, §4.3: `define` inserts or overwrites in the
current scope only.  The new binding is consed onto the frame, which is
observationally the insert-or-overwrite of the spec since lookup takes the
first hit. -/
def defineVar (store : List Frame) (env : Nat) (name : List Char) (v : SchemeVal) :
    List Frame :=
  match store.get? env with
  | some fr => store.set env { fr with bindings := (name, v) :: fr.bindings }
  | none => store

def quoteName : List Char := ['q', 'u', 'o', 't', 'e']
def defineName : List Char := ['d', 'e', 'f', 'i', 'n', 'e']
def lambdaName : List Char := ['l', 'a', 'm', 'b', 'd', 'a']

/-- Modelled from the spec, §4.4: a `lambda`'s first argument must be a List
of Symbols; extract the parameter names or fail. -/
def paramNames : List SExpr → Option (List (List Char))
| [] => some []
| .symE s :: rest => (paramNames rest).map (fun l => s :: l)
| _ => none

mutual

/-- Modelled from the spec, §4.4: `evaluate(expr, env) -> Value`, dispatching
on the expression's shape: numbers are self-evaluating; symbols are looked
up; the empty List is self-evaluating; a non-empty List headed by one of the
special-form keywords follows the table; any other non-empty List is an
application.  The store is threaded because `define` mutates environments in
place.  The claims settled against this evaluator exercise `quote`, `define`,
`lambda` and application; the `if` form (unused by any claim) is omitted, so
its closed-set dispatch slot is not modelled here. -/
def evaluate : Nat → SExpr → Nat → List Frame →
    Except SchemeErr (SchemeVal × List Frame)
| 0, _, _, _ => .error .OutOfFuel
| fuel + 1, e, env, store =>
  match e with
  | .intE n => .ok (.datum (.intE n), store)
  | .floatE q => .ok (.datum (.floatE q), store)
  | .symE s =>
    match lookupVar (store.length + 1) store env s with
    | .ok v => .ok (v, store)
    | .error err => .error err
  | .listE [] => .ok (.datum (.listE []), store)
  | .listE (h :: args) =>
    match h with
    | .symE s =>
      if s = quoteName then
        match args with
        | [x] => .ok (.datum x, store)
        | _ => .error .MalformedSpecialForm
      else if s = defineName then
        match args with
        | [.symE name, e2] =>
          match evaluate fuel e2 env store with
          | .error err => .error err
          | .ok (v, store1) => .ok (.noValue, defineVar store1 env name v)
        | _ => .error .MalformedSpecialForm
      else if s = lambdaName then
        match args with
        | ps :: body =>
          match ps, body with
          | .listE pes, _ :: _ =>
            match paramNames pes with
            | some names => .ok (.closure names body env, store)
            | none => .error .MalformedSpecialForm
          | _, _ => .error .MalformedSpecialForm
        | [] => .error .MalformedSpecialForm
      else evalApply fuel (.symE s) args env store
    | _ => evalApply fuel h args env store
termination_by structural fuel _ _ _ => fuel

/-- Modelled from the spec, §4.4: application — evaluate the head, evaluate
the arguments left to right, then invoke. -/
def evalApply : Nat → SExpr → List SExpr → Nat → List Frame →
    Except SchemeErr (SchemeVal × List Frame)
| 0, _, _, _, _ => .error .OutOfFuel
| fuel + 1, h, args, env, store =>
  match evaluate fuel h env store with
  | .error err => .error err
  | .ok (f, store1) =>
    match evalArgs fuel args env store1 with
    | .error err => .error err
    | .ok (vs, store2) => applyVal fuel f vs store2
termination_by structural fuel _ _ _ _ => fuel

/-- Modelled from the spec, §4.4: eager left-to-right argument evaluation. -/
def evalArgs : Nat → List SExpr → Nat → List Frame →
    Except SchemeErr (List SchemeVal × List Frame)
| 0, _, _, _ => .error .OutOfFuel
| _ + 1, [], _, store => .ok ([], store)
| fuel + 1, e :: es, env, store =>
  match evaluate fuel e env store with
  | .error err => .error err
  | .ok (v, store1) =>
    match evalArgs fuel es env store1 with
    | .error err => .error err
    | .ok (vs, store2) => .ok (v :: vs, store2)
termination_by structural fuel _ _ _ => fuel

/-- Modelled from the spec, §4.4/§7: invoking a value.  A Closure checks
exact arity (else `ArityMismatch`), creates one fresh child Environment of
its captured defining Environment, binds parameters positionally, and
evaluates the body in sequence.  Applying a non-callable fails with
`InvalidExpression`. -/
def applyVal : Nat → SchemeVal → List SchemeVal → List Frame →
    Except SchemeErr (SchemeVal × List Frame)
| 0, _, _, _ => .error .OutOfFuel
| fuel + 1, .closure params body envC, args, store =>
  if params.length = args.length then
    applyBody fuel body (store.length) (store ++ [⟨params.zip args, some envC⟩])
  else .error .ArityMismatch
| _ + 1, .datum _, _, _ => .error .InvalidExpression
| _ + 1, .noValue, _, _ => .error .InvalidExpression
termination_by structural fuel _ _ _ => fuel

/-- Modelled from the spec, §4.4: body expressions evaluated strictly in
order; the last one's value is the result.  (A `lambda` body is never empty,
so the `[]` case is unreachable; it returns the no-value marker.) -/
def applyBody : Nat → List SExpr → Nat → List Frame →
    Except SchemeErr (SchemeVal × List Frame)
| 0, _, _, _ => .error .OutOfFuel
| _ + 1, [], _, store => .ok (.noValue, store)
| fuel + 1, [e], env, store => evaluate fuel e env store
| fuel + 1, e :: e2 :: es, env, store =>
  match evaluate fuel e env store with
  | .error err => .error err
  | .ok (_, store1) => applyBody fuel (e2 :: es) env store1
termination_by structural fuel _ _ _ => fuel

end

/-- The root store: one global Environment with no parent (spec §2/§4.5;
primitives are irrelevant to the claims settled here and are not
installed). -/
def initialStore : List Frame := [⟨[], none⟩]

/-- Evaluate a sequence of top-level expressions in the persistent root
Environment (as the spec §6 read loop does line by line) and return the last
value. -/
def runProgram (fuel : Nat) (es : List SExpr) : Except SchemeErr SchemeVal :=
  (applyBody fuel es 0 initialStore).map Prod.fst

/-- The claim C7 scenario program: define `f` as a closure created where `y`
is `n`, rebind `y` to `m` at top level, then call `(f)`. -/
def c7Program (n m : ℤ) : List SExpr :=
  [ .listE [.symE defineName, .symE ['f'],
      .listE [ .listE [.symE lambdaName, .listE [.symE ['y']],
        .listE [.symE lambdaName, .listE [], .symE ['y']]], .intE n ]],
    .listE [.symE defineName, .symE ['y'], .intE m],
    .listE [.symE ['f']] ]

end Scheme

namespace Compiler

/-- Verification predicate: the effect of one successful `scan_token` call
entered from the scan loop.  The cursor strictly advances and stays in
bounds, the line counter tracks the newlines of the consumed prefix, and at
most one token is appended — a non-EOF token whose lexeme is exactly the
source slice from the entry `start` to the final cursor, stamped with the
final line. -/
def StepOk (st st' : Scanner) : Prop :=
  st'.source = st.source ∧ st'.start = st.start ∧
  st.current < st'.current ∧ st'.current ≤ st.source.length ∧
  st.line ≤ st'.line ∧
  (st.line = 1 + nlCount (st.source.take st.current) →
    st'.line = 1 + nlCount (st.source.take st'.current)) ∧
  (st'.tokens = st.tokens ∨
    ∃ t, st'.tokens = st.tokens ++ [t] ∧ t.type ≠ TokenType.EOF ∧
      t.lexeme = slice st.source st.start st'.current ∧ t.line = st'.line)

/-- Verification predicate: the tokens' lexemes are in-order, non-overlapping
slices of the source, lying between positions `i` and `j` (claim C3's "token
order matches source order"). -/
def OSlices (src : List Char) : Nat → List Token → Nat → Prop
| i, [], j => i ≤ j
| i, t :: ts, j => ∃ a b, i ≤ a ∧ a < b ∧ t.lexeme = slice src a b ∧ OSlices src b ts j

/-- Verification predicate: the scan-loop invariant tying the scanner state
to the tokens accumulated so far. -/
def ScanInv (st : Scanner) : Prop :=
  st.current ≤ st.source.length ∧
  st.line = 1 + nlCount (st.source.take st.current) ∧
  OSlices st.source 0 st.tokens st.current ∧
  ∀ t ∈ st.tokens, t.type ≠ TokenType.EOF ∧ 1 ≤ t.line ∧ t.line ≤ st.line

/-- Verification predicate: a token-free-in-effect extension of the scanner
state — source, start and tokens unchanged, cursor weakly advanced within
bounds, line weakly increased and still tracking consumed newlines. -/
def Ext (st st' : Scanner) : Prop :=
  st'.source = st.source ∧ st'.start = st.start ∧ st'.tokens = st.tokens ∧
  st.current ≤ st'.current ∧ st'.current ≤ st.source.length ∧
  st.line ≤ st'.line ∧
  (st.line = 1 + nlCount (st.source.take st.current) →
    st'.line = 1 + nlCount (st.source.take st'.current))

/-- Verification predicate: whether a parser result is a raised
`SyntaxError` (as opposed to a normal return or fuel exhaustion). -/
def isSyntaxErrR {α : Type} : Except PErr α → Bool
| .error (.syntaxErr _ _) => true
| _ => false

theorem slice_length (src : List Char) (a b : Nat) :
    (slice src a b).length = min (b - a) (src.length - a) := by
  simp [slice]

theorem slice_ne_nil (src : List Char) (a b : Nat) (h1 : a < b) (h2 : a < src.length) :
    slice src a b ≠ [] := by
  intro hnil
  have h := slice_length src a b
  rw [hnil] at h
  simp only [List.length_nil] at h
  omega

theorem nlCount_append (a b : List Char) : nlCount (a ++ b) = nlCount a + nlCount b := by
  simp [nlCount, List.countP_append]

theorem nlCount_take_le (src : List Char) (n : Nat) : nlCount (src.take n) ≤ nlCount src :=
  List.Sublist.countP_le _ (List.take_sublist n src)

theorem nlCount_take_succ (src : List Char) (a : Nat) (h : a < src.length) :
    nlCount (src.take (a + 1)) =
      nlCount (src.take a) + (if src.getD a '\x00' = '\n' then 1 else 0) := by
  rw [List.take_succ, nlCount_append]
  congr 1
  rw [List.getElem?_eq_getElem h]
  rw [List.getD_eq_getElem?_getD, List.getElem?_eq_getElem h]
  simp only [Option.toList_some, Option.getD_some, nlCount, List.countP_cons,
    List.countP_nil, Nat.zero_add]
  by_cases hc : src[a] = '\n' <;> simp [hc]

end Compiler

namespace Compiler

theorem chompFuel_spec (p : Char → Bool) :
    ∀ (fuel : Nat) (st : Scanner), st.source.length - st.current < fuel →
    (Scanner.chompFuel p fuel st).source = st.source ∧
    (Scanner.chompFuel p fuel st).start = st.start ∧
    (Scanner.chompFuel p fuel st).tokens = st.tokens ∧
    st.current ≤ (Scanner.chompFuel p fuel st).current ∧
    (st.current ≤ st.source.length → (Scanner.chompFuel p fuel st).current ≤ st.source.length) ∧
    st.line ≤ (Scanner.chompFuel p fuel st).line ∧
    (st.line = 1 + nlCount (st.source.take st.current) →
      (Scanner.chompFuel p fuel st).line =
        1 + nlCount (st.source.take (Scanner.chompFuel p fuel st).current)) := by
  intro fuel
  induction fuel with
  | zero =>
    intro st h
    omega
  | succ n ih =>
    intro st hm
    rw [Scanner.chompFuel]
    split
    · rename_i h
      have h2 := h.2
      simp only [Scanner.isAtEnd, decide_eq_false_iff_not, Nat.not_le] at h2
      have IH := ih { st with
          line := if st.peek = '\n' then st.line + 1 else st.line,
          current := st.current + 1 }
        (by show st.source.length - (st.current + 1) < n; omega)
      obtain ⟨i1, i2, i3, i4, i5, i6, i7⟩ := IH
      have i4' : st.current + 1 ≤ (Scanner.chompFuel p n { st with
          line := if st.peek = '\n' then st.line + 1 else st.line,
          current := st.current + 1 }).current := i4
      have i5' : st.current + 1 ≤ st.source.length → (Scanner.chompFuel p n { st with
          line := if st.peek = '\n' then st.line + 1 else st.line,
          current := st.current + 1 }).current ≤ st.source.length := i5
      have i6' : (if st.peek = '\n' then st.line + 1 else st.line) ≤
          (Scanner.chompFuel p n { st with
            line := if st.peek = '\n' then st.line + 1 else st.line,
            current := st.current + 1 }).line := i6
      refine ⟨i1, i2, i3, by omega, fun _ => by apply i5'; omega, by
        refine le_trans ?_ i6'
        split <;> omega, ?_⟩
      intro hline
      apply i7
      show (if st.peek = '\n' then st.line + 1 else st.line) =
        1 + nlCount (st.source.take (st.current + 1))
      rw [nlCount_take_succ st.source st.current h2]
      have hpeek : st.peek = st.source.getD st.current '\x00' := by
        simp [Scanner.peek, Scanner.isAtEnd, Nat.not_le.mpr h2]
      rw [hpeek, hline]
      by_cases hc : st.source.getD st.current '\x00' = '\n'
      · rw [if_pos hc, if_pos hc]
        omega
      · rw [if_neg hc, if_neg hc]
        omega
    · exact ⟨rfl, rfl, rfl, le_refl _, fun h => h, le_refl _, fun h => h⟩

theorem chomp_spec (p : Char → Bool) (st : Scanner) :
    (Scanner.chomp p st).source = st.source ∧
    (Scanner.chomp p st).start = st.start ∧
    (Scanner.chomp p st).tokens = st.tokens ∧
    st.current ≤ (Scanner.chomp p st).current ∧
    (st.current ≤ st.source.length → (Scanner.chomp p st).current ≤ st.source.length) ∧
    st.line ≤ (Scanner.chomp p st).line ∧
    (st.line = 1 + nlCount (st.source.take st.current) →
      (Scanner.chomp p st).line = 1 + nlCount (st.source.take (Scanner.chomp p st).current)) :=
  chompFuel_spec p (st.source.length - st.current + 1) st (by omega)

theorem chompFuel_exit (p : Char → Bool) :
    ∀ (fuel : Nat) (st : Scanner), st.source.length - st.current < fuel →
    p (Scanner.chompFuel p fuel st).peek = false ∨
      (Scanner.chompFuel p fuel st).isAtEnd = true := by
  intro fuel
  induction fuel with
  | zero =>
    intro st h
    omega
  | succ n ih =>
    intro st hm
    rw [Scanner.chompFuel]
    split
    · rename_i h
      have h2 := h.2
      simp only [Scanner.isAtEnd, decide_eq_false_iff_not, Nat.not_le] at h2
      exact ih _ (by show st.source.length - (st.current + 1) < n; omega)
    · rename_i h
      rw [Classical.not_and_iff_or_not_not] at h
      rcases h with h | h
      · exact Or.inl (by simpa using h)
      · exact Or.inr (by simpa using h)

theorem chomp_exit (p : Char → Bool) (st : Scanner) :
    p (Scanner.chomp p st).peek = false ∨ (Scanner.chomp p st).isAtEnd = true :=
  chompFuel_exit p (st.source.length - st.current + 1) st (by omega)

theorem chompFuel_line_eq (p : Char → Bool) (hp : p '\n' = false) :
    ∀ (fuel : Nat) (st : Scanner), (Scanner.chompFuel p fuel st).line = st.line := by
  intro fuel
  induction fuel with
  | zero =>
    intro st
    rfl
  | succ n ih =>
    intro st
    rw [Scanner.chompFuel]
    split
    · rename_i h
      have hne : ¬ st.peek = '\n' := by
        intro he
        rw [he, hp] at h
        exact Bool.false_ne_true h.1
      rw [ih { st with
          line := if st.peek = '\n' then st.line + 1 else st.line,
          current := st.current + 1 }]
      show (if st.peek = '\n' then st.line + 1 else st.line) = st.line
      rw [if_neg hne]
    · rfl

theorem chomp_line_eq (p : Char → Bool) (hp : p '\n' = false) (st : Scanner) :
    (Scanner.chomp p st).line = st.line :=
  chompFuel_line_eq p hp (st.source.length - st.current + 1) st

theorem chompFuel_current (p : Char → Bool) :
    ∀ (fuel : Nat) (st : Scanner), st.current ≤ st.source.length →
      st.source.length - st.current < fuel →
    (Scanner.chompFuel p fuel st).current =
      st.current + ((st.source.drop st.current).takeWhile p).length := by
  intro fuel
  induction fuel with
  | zero =>
    intro st h hm
    omega
  | succ n ih =>
    intro st h hm
    by_cases hc : st.current = st.source.length
    · rw [Scanner.chompFuel]
      split
      · rename_i hg
        exfalso
        have h2 := hg.2
        simp only [Scanner.isAtEnd, decide_eq_false_iff_not, Nat.not_le] at h2
        omega
      · rw [List.drop_eq_nil_of_le (le_of_eq hc.symm)]
        simp
    · have hlt : st.current < st.source.length := by omega
      have hdrop : st.source.drop st.current =
          st.source[st.current] :: st.source.drop (st.current + 1) :=
        List.drop_eq_getElem_cons hlt
      have hpeek : st.peek = st.source[st.current] := by
        simp [Scanner.peek, Scanner.isAtEnd, Nat.not_le.mpr hlt,
          List.getD_eq_getElem?_getD, List.getElem?_eq_getElem hlt]
      rw [Scanner.chompFuel]
      split
      · rename_i hg
        have hp1 : p st.source[st.current] = true := by rw [← hpeek]; exact hg.1
        have IH' : (Scanner.chompFuel p n { st with
            line := if st.peek = '\n' then st.line + 1 else st.line,
            current := st.current + 1 }).current =
            (st.current + 1) + ((st.source.drop (st.current + 1)).takeWhile p).length :=
          ih { st with
            line := if st.peek = '\n' then st.line + 1 else st.line,
            current := st.current + 1 }
            (by show st.current + 1 ≤ st.source.length; omega)
            (by show st.source.length - (st.current + 1) < n; omega)
        have hRHS : (st.source.drop st.current).takeWhile p =
            st.source[st.current] :: (st.source.drop (st.current + 1)).takeWhile p := by
          rw [hdrop, List.takeWhile_cons_of_pos hp1]
        rw [IH', hRHS]
        simp only [List.length_cons]
        omega
      · rename_i hg
        rw [Classical.not_and_iff_or_not_not] at hg
        rcases hg with hg | hg
        · have hp0 : p st.source[st.current] = false := by
            rw [← hpeek]
            simpa using hg
          rw [hdrop, List.takeWhile_cons, hp0]
          simp
        · exfalso
          simp only [Scanner.isAtEnd] at hg
          rw [Bool.not_eq_false] at hg
          simp only [decide_eq_true_eq] at hg
          omega

theorem chomp_current (p : Char → Bool) (st : Scanner) (h : st.current ≤ st.source.length) :
    (Scanner.chomp p st).current =
      st.current + ((st.source.drop st.current).takeWhile p).length :=
  chompFuel_current p (st.source.length - st.current + 1) st h (by omega)


theorem takeWhile_getD_stop {p : Char → Bool} (d : Char) :
    ∀ l : List Char, (l.takeWhile p).length < l.length →
      p (l.getD (l.takeWhile p).length d) = false := by
  intro l
  induction l with
  | nil => intro h; simp at h
  | cons a t ih =>
    intro h
    by_cases hp : p a
    · rw [List.takeWhile_cons, if_pos hp] at h ⊢
      simp only [List.length_cons] at h ⊢
      exact ih (by omega)
    · rw [List.takeWhile_cons, if_neg hp] at h ⊢
      simp only [List.length_nil, List.getD_cons_zero]
      simpa using hp

theorem takeWhile_take_eq {p : Char → Bool} (l : List Char) :
    l.take (l.takeWhile p).length = l.takeWhile p := by
  obtain ⟨t, ht⟩ := (List.takeWhile_prefix p : l.takeWhile p <+: l)
  generalize hw : l.takeWhile p = w at ht ⊢
  rw [← ht, List.take_left]

theorem chomp_nl_take (p : Char → Bool) (hp : p '\n' = false) (st : Scanner)
    (h : st.current ≤ st.source.length) :
    nlCount (st.source.take (Scanner.chomp p st).current) =
      nlCount (st.source.take st.current) := by
  rw [chomp_current p st h, List.take_add, nlCount_append]
  have hz : nlCount ((st.source.drop st.current).take
      ((st.source.drop st.current).takeWhile p).length) = 0 := by
    rw [takeWhile_take_eq]
    rw [nlCount, List.countP_eq_zero]
    intro c hc
    have hpc := List.mem_takeWhile_imp hc
    simp only [beq_iff_eq, decide_eq_true_eq]
    intro he
    rw [he, hp] at hpc
    exact Bool.false_ne_true hpc
  omega

end Compiler

namespace Compiler

theorem nl_take_one (st : Scanner) (hb : st.current < st.source.length)
    (hch : st.source.getD st.current '\x00' ≠ '\n') :
    nlCount (st.source.take (st.current + 1)) = nlCount (st.source.take st.current) := by
  rw [nlCount_take_succ _ _ hb, if_neg hch]
  omega

theorem addToken_tokens (u : Scanner) (ty : TokenType) (lit : Option PyLit) :
    (u.addToken ty lit).tokens =
      u.tokens ++ [⟨ty, slice u.source u.start u.current, lit, u.line⟩] := rfl

theorem addToken_current (u : Scanner) (ty : TokenType) (lit : Option PyLit) :
    (u.addToken ty lit).current = u.current := rfl

theorem assocFind_getD_ne {α : Type} [DecidableEq α] (l : List (α × TokenType)) (k : α)
    (h : ∀ p ∈ l, p.2 ≠ TokenType.EOF) :
    (assocFind l k).getD TokenType.IDENTIFIER ≠ TokenType.EOF := by
  induction l with
  | nil => simp [assocFind]
  | cons a r ih =>
    simp only [assocFind]
    split_ifs
    · simpa using h a (by simp)
    · exact ih (fun p hp => h p (by simp [hp]))

theorem keywordType_ne_eof (w : List Char) :
    (assocFind keywords w).getD TokenType.IDENTIFIER ≠ TokenType.EOF :=
  assocFind_getD_ne keywords w (by decide)

theorem stepOk_of_addToken (st : Scanner) (k : Nat) (ty : TokenType) (lit : Option PyLit)
    (hty : ty ≠ TokenType.EOF) (hk : 0 < k) (hle : st.current + k ≤ st.source.length)
    (hnl : nlCount (st.source.take (st.current + k)) = nlCount (st.source.take st.current)) :
    StepOk st (Scanner.addToken { st with current := st.current + k } ty lit) := by
  unfold StepOk Scanner.addToken
  refine ⟨rfl, rfl, by show st.current < st.current + k; omega,
    by show st.current + k ≤ st.source.length; exact hle, le_refl _, ?_, ?_⟩
  · intro hl
    show st.line = 1 + nlCount (st.source.take (st.current + k))
    rw [hnl]
    exact hl
  · right
    exact ⟨_, rfl, hty, rfl, rfl⟩

theorem stepOk_skip (st : Scanner) (hb : st.current < st.source.length)
    (hch : st.source.getD st.current '\x00' ≠ '\n') :
    StepOk st { st with current := st.current + 1 } := by
  unfold StepOk
  refine ⟨rfl, rfl, by show st.current < st.current + 1; omega,
    by show st.current + 1 ≤ st.source.length; omega, le_refl _, ?_, Or.inl rfl⟩
  intro hl
  show st.line = 1 + nlCount (st.source.take (st.current + 1))
  rw [nl_take_one st hb hch]
  exact hl

theorem stepOk_newline (st : Scanner) (hb : st.current < st.source.length)
    (hch : st.source.getD st.current '\x00' = '\n') :
    StepOk st { st with current := st.current + 1, line := st.line + 1 } := by
  unfold StepOk
  refine ⟨rfl, rfl, by show st.current < st.current + 1; omega,
    by show st.current + 1 ≤ st.source.length; omega,
    by show st.line ≤ st.line + 1; omega, ?_, Or.inl rfl⟩
  intro hl
  show st.line + 1 = 1 + nlCount (st.source.take (st.current + 1))
  rw [nlCount_take_succ _ _ hb, if_pos hch, hl]
  omega

end Compiler

namespace Compiler

theorem ext_trans {a b c : Scanner} (h1 : Ext a b) (h2 : Ext b c) : Ext a c := by
  obtain ⟨s1, t1, k1, c1, l1, m1, n1⟩ := h1
  obtain ⟨s2, t2, k2, c2, l2, m2, n2⟩ := h2
  refine ⟨by rw [s2, s1], by rw [t2, t1], by rw [k2, k1], by omega, by rw [← s1]; exact l2,
    by omega, ?_⟩
  intro hl
  have hmid : b.line = 1 + nlCount (b.source.take b.current) := by
    rw [s1]
    exact n1 hl
  have hout := n2 hmid
  rw [s1] at hout
  exact hout

theorem ext_chomp (p : Char → Bool) (st : Scanner) (h : st.current ≤ st.source.length) :
    Ext st (Scanner.chomp p st) := by
  obtain ⟨a1, a2, a3, a4, a5, a6, a7⟩ := chomp_spec p st
  exact ⟨a1, a2, a3, a4, a5 h, a6, a7⟩

theorem ext_advance1 (st : Scanner) (hb : st.current < st.source.length)
    (hch : st.source.getD st.current '\x00' ≠ '\n') :
    Ext st { st with current := st.current + 1 } := by
  refine ⟨rfl, rfl, rfl, by show st.current ≤ st.current + 1; omega,
    by show st.current + 1 ≤ st.source.length; omega, le_refl _, ?_⟩
  intro hl
  show st.line = 1 + nlCount (st.source.take (st.current + 1))
  rw [nl_take_one st hb hch]
  exact hl

theorem current_lt_of_peek (st : Scanner) (h : st.peek ≠ '\x00') :
    st.current < st.source.length := by
  by_contra hc
  have hend : st.isAtEnd = true := by
    simp only [Scanner.isAtEnd, decide_eq_true_eq]
    omega
  simp [Scanner.peek, hend] at h

theorem peek_eq_getD (st : Scanner) (hb : st.current < st.source.length) :
    st.peek = st.source.getD st.current '\x00' := by
  simp [Scanner.peek, Scanner.isAtEnd, Nat.not_le.mpr hb]

theorem stepOk_addToken_ext (st u : Scanner) (hext : Ext st u)
    (hstrict : st.current < u.current) (ty : TokenType) (hty : ty ≠ TokenType.EOF)
    (lit : Option PyLit) : StepOk st (Scanner.addToken u ty lit) := by
  obtain ⟨s1, t1, k1, c1, l1, m1, n1⟩ := hext
  unfold StepOk Scanner.addToken
  refine ⟨s1, t1, hstrict, l1, m1, n1, ?_⟩
  right
  refine ⟨⟨ty, slice u.source u.start u.current, lit, u.line⟩, by rw [k1], hty, ?_, rfl⟩
  rw [s1, t1]

theorem stepOk_of_ext_stepOk {a b c : Scanner} (h1 : Ext a b) (h2 : StepOk b c) :
    StepOk a c := by
  obtain ⟨s1, t1, k1, c1, l1, m1, n1⟩ := h1
  obtain ⟨s2, t2, c2, l2, m2, n2, tk⟩ := h2
  refine ⟨by rw [s2, s1], by rw [t2, t1], by omega, by rw [← s1]; exact l2, by omega, ?_, ?_⟩
  · intro hl
    have hmid : b.line = 1 + nlCount (b.source.take b.current) := by
      rw [s1]
      exact n1 hl
    have hout := n2 hmid
    rw [s1] at hout
    exact hout
  · rcases tk with tk | ⟨t, ht, hty, hlex, hline⟩
    · exact Or.inl (by rw [tk, k1])
    · refine Or.inr ⟨t, by rw [ht, k1], hty, ?_, hline⟩
      rw [hlex, s1, t1]

end Compiler

namespace Compiler

theorem stepOk_of_ext (st u : Scanner) (hext : Ext st u) (hstrict : st.current < u.current) :
    StepOk st u := by
  obtain ⟨s1, t1, k1, c1, l1, m1, n1⟩ := hext
  exact ⟨s1, t1, hstrict, l1, m1, n1, Or.inl k1⟩

theorem ext_current_le_len (st u : Scanner) (hext : Ext st u) :
    u.current ≤ u.source.length := by
  obtain ⟨s1, _, _, _, l1, _, _⟩ := hext
  rw [s1]
  exact l1

theorem scanString_ok (st st' : Scanner) (hb : st.current ≤ st.source.length)
    (h : Scanner.scanString st = .ok st') :
    StepOk st st' ∧
    st'.tokens = st.tokens ++
      [⟨.STRING, slice st.source st.start st'.current,
        some (.str (slice st.source (st.start + 1) (st'.current - 1))), st'.line⟩] := by
  have hq0 := chomp_exit (fun c => !(c == '"')) st
  have hext := ext_chomp (fun c => !(c == '"')) st hb
  simp only [Scanner.scanString, Scanner.advance] at h
  by_cases hend : (Scanner.chomp (fun c => !(c == '"')) st).isAtEnd = true
  · rw [if_pos hend] at h
    exact absurd h (by simp)
  · rw [if_neg hend] at h
    simp only [Except.ok.injEq] at h
    subst h
    have hq : (Scanner.chomp (fun c => !(c == '"')) st).peek = '"' := by
      rcases hq0 with hx | hx
      · simpa using hx
      · exact absurd hx hend
    have hlt : (Scanner.chomp (fun c => !(c == '"')) st).current <
        (Scanner.chomp (fun c => !(c == '"')) st).source.length := by
      simp only [Scanner.isAtEnd, decide_eq_true_eq, Nat.not_le] at hend
      omega
    have hch : (Scanner.chomp (fun c => !(c == '"')) st).source.getD
        (Scanner.chomp (fun c => !(c == '"')) st).current '\x00' = '"' := by
      rw [← peek_eq_getD _ hlt]
      exact hq
    have hadv := ext_advance1 (Scanner.chomp (fun c => !(c == '"')) st) hlt
      (by rw [hch]; decide)
    have hext2 := ext_trans hext hadv
    have hstrict : st.current <
        ({ Scanner.chomp (fun c => !(c == '"')) st with
           current := (Scanner.chomp (fun c => !(c == '"')) st).current + 1 } : Scanner).current := by
      have h1 : st.current ≤ (Scanner.chomp (fun c => !(c == '"')) st).current := hext.2.2.2.1
      show st.current < (Scanner.chomp (fun c => !(c == '"')) st).current + 1
      omega
    constructor
    · exact stepOk_addToken_ext _ _ hext2 hstrict .STRING (by decide) _
    · obtain ⟨s1, t1, k1, c1, l1, m1, n1⟩ := hext2
      show _ ++ _ = _
      rw [k1, s1, t1]
      rfl

theorem stepOk_scanNumber (st : Scanner) (hb : st.current < st.source.length)
    (hch : st.source.getD st.current '\x00' ≠ '\n') :
    StepOk st (Scanner.scanNumber { st with current := st.current + 1 }) := by
  have e1 := ext_advance1 st hb hch
  have e2 := ext_chomp Scanner.isDigit { st with current := st.current + 1 }
    (by show st.current + 1 ≤ st.source.length; omega)
  have e12 := ext_trans e1 e2
  simp only [Scanner.scanNumber]
  split
  · rename_i hdot
    have hlt1 : (Scanner.chomp Scanner.isDigit { st with current := st.current + 1 }).current <
        (Scanner.chomp Scanner.isDigit { st with current := st.current + 1 }).source.length :=
      current_lt_of_peek _ (by rw [hdot.1]; decide)
    have hch1 : (Scanner.chomp Scanner.isDigit { st with current := st.current + 1 }).source.getD
        (Scanner.chomp Scanner.isDigit { st with current := st.current + 1 }).current '\x00' ≠ '\n' := by
      rw [← peek_eq_getD _ hlt1, hdot.1]
      decide
    have e3 := ext_advance1 _ hlt1 hch1
    have e4 := ext_chomp Scanner.isDigit
      { Scanner.chomp Scanner.isDigit { st with current := st.current + 1 } with
        current := (Scanner.chomp Scanner.isDigit { st with current := st.current + 1 }).current + 1 }
      (by show (Scanner.chomp Scanner.isDigit { st with current := st.current + 1 }).current + 1 ≤ _
          exact hlt1)
    have eAll := ext_trans e12 (ext_trans e3 e4)
    have hstrict : st.current < (Scanner.chomp Scanner.isDigit
        { Scanner.chomp Scanner.isDigit { st with current := st.current + 1 } with
          current := (Scanner.chomp Scanner.isDigit { st with current := st.current + 1 }).current + 1 }).current := by
      have h1 : (Scanner.chomp Scanner.isDigit { st with current := st.current + 1 }).current + 1 ≤
          (Scanner.chomp Scanner.isDigit
            { Scanner.chomp Scanner.isDigit { st with current := st.current + 1 } with
              current := (Scanner.chomp Scanner.isDigit { st with current := st.current + 1 }).current + 1 }).current :=
        e4.2.2.2.1
      have h2 : st.current + 1 ≤
          (Scanner.chomp Scanner.isDigit { st with current := st.current + 1 }).current :=
        e2.2.2.2.1
      omega
    exact stepOk_addToken_ext _ _ eAll hstrict .NUMBER (by decide) _
  · have hstrict : st.current <
        (Scanner.chomp Scanner.isDigit { st with current := st.current + 1 }).current := by
      have h2 : st.current + 1 ≤
          (Scanner.chomp Scanner.isDigit { st with current := st.current + 1 }).current :=
        e2.2.2.2.1
      omega
    exact stepOk_addToken_ext _ _ e12 hstrict .NUMBER (by decide) _

theorem stepOk_scanIdentifier (st : Scanner) (hb : st.current < st.source.length)
    (hch : st.source.getD st.current '\x00' ≠ '\n') :
    StepOk st (Scanner.scanIdentifier { st with current := st.current + 1 }) := by
  have e1 := ext_advance1 st hb hch
  have e2 := ext_chomp Scanner.isAlphanumeric { st with current := st.current + 1 }
    (by show st.current + 1 ≤ st.source.length; omega)
  have e12 := ext_trans e1 e2
  have hstrict : st.current <
      (Scanner.chomp Scanner.isAlphanumeric { st with current := st.current + 1 }).current := by
    have h2 : st.current + 1 ≤
        (Scanner.chomp Scanner.isAlphanumeric { st with current := st.current + 1 }).current :=
      e2.2.2.2.1
    omega
  simp only [Scanner.scanIdentifier]
  exact stepOk_addToken_ext _ _ e12 hstrict _ (keywordType_ne_eof _) _

end Compiler

namespace Compiler

theorem matchCh_spec (st : Scanner) (ch : Char) :
    ((st.matchCh ch).1 = true ∧ (st.matchCh ch).2 = { st with current := st.current + 1 } ∧
      st.current < st.source.length ∧ st.source.getD st.current '\x00' = ch) ∨
    ((st.matchCh ch).1 = false ∧ (st.matchCh ch).2 = st) := by
  unfold Scanner.matchCh
  split_ifs with h1 h2
  · right
    exact ⟨rfl, rfl⟩
  · right
    exact ⟨rfl, rfl⟩
  · left
    refine ⟨rfl, rfl, ?_, by simpa using h2⟩
    simp only [Scanner.isAtEnd, decide_eq_true_eq] at h1
    omega

end Compiler

namespace Compiler

theorem stepOk_twoChar (st : Scanner) (hb : st.current < st.source.length)
    (h2 : st.current + 1 < st.source.length)
    (hch : st.source.getD st.current '\x00' ≠ '\n')
    (hch2 : st.source.getD (st.current + 1) '\x00' ≠ '\n')
    (ty : TokenType) (hty : ty ≠ TokenType.EOF) (lit : Option PyLit) :
    StepOk st (Scanner.addToken
      { ({ st with current := st.current + 1 } : Scanner) with
        current := ({ st with current := st.current + 1 } : Scanner).current + 1 } ty lit) := by
  refine stepOk_addToken_ext st _ (ext_trans (ext_advance1 st hb hch)
    (ext_advance1 { st with current := st.current + 1 }
      (by show st.current + 1 < st.source.length; exact h2)
      (by show st.source.getD (st.current + 1) '\x00' ≠ '\n'; exact hch2))) ?_ ty hty lit
  show st.current < st.current + 1 + 1
  omega

theorem stepOk_comment (st : Scanner) (hb : st.current < st.source.length)
    (h2 : st.current + 1 < st.source.length)
    (hch : st.source.getD st.current '\x00' ≠ '\n')
    (hch2 : st.source.getD (st.current + 1) '\x00' ≠ '\n') :
    StepOk st (Scanner.chomp (fun ch => !(ch == '\n'))
      { ({ st with current := st.current + 1 } : Scanner) with
        current := ({ st with current := st.current + 1 } : Scanner).current + 1 }) := by
  have e1 := ext_trans (ext_advance1 st hb hch)
    (ext_advance1 { st with current := st.current + 1 }
      (by show st.current + 1 < st.source.length; exact h2)
      (by show st.source.getD (st.current + 1) '\x00' ≠ '\n'; exact hch2))
  have e2 := ext_chomp (fun ch => !(ch == '\n'))
    { ({ st with current := st.current + 1 } : Scanner) with
      current := ({ st with current := st.current + 1 } : Scanner).current + 1 }
    (by show st.current + 1 + 1 ≤ st.source.length; omega)
  have hcc : st.current + 1 + 1 ≤ (Scanner.chomp (fun ch => !(ch == '\n'))
      { ({ st with current := st.current + 1 } : Scanner) with
        current := ({ st with current := st.current + 1 } : Scanner).current + 1 }).current :=
    e2.2.2.2.1
  refine stepOk_of_ext st _ (ext_trans e1 e2) ?_
  omega

set_option maxHeartbeats 2000000 in
theorem scanToken_spec (st st' : Scanner) (hok : Scanner.scanToken st = .ok st')
    (hb : st.current < st.source.length) : StepOk st st' := by
  rw [Scanner.scanToken] at hok
  dsimp only [Scanner.advance] at hok
  rw [Scanner.dispatchChar] at hok
  by_cases h1 : st.source.getD st.current '\x00' = '('
  · rw [if_pos h1, Except.ok.injEq] at hok
    subst hok
    exact stepOk_addToken_ext st _ (ext_advance1 st hb (by rw [h1]; decide))
      (by show st.current < st.current + 1; omega) _ (by decide) none
  rw [if_neg h1] at hok
  by_cases h2 : st.source.getD st.current '\x00' = ')'
  · rw [if_pos h2, Except.ok.injEq] at hok
    subst hok
    exact stepOk_addToken_ext st _ (ext_advance1 st hb (by rw [h2]; decide))
      (by show st.current < st.current + 1; omega) _ (by decide) none
  rw [if_neg h2] at hok
  by_cases h3 : st.source.getD st.current '\x00' = '{'
  · rw [if_pos h3, Except.ok.injEq] at hok
    subst hok
    exact stepOk_addToken_ext st _ (ext_advance1 st hb (by rw [h3]; decide))
      (by show st.current < st.current + 1; omega) _ (by decide) none
  rw [if_neg h3] at hok
  by_cases h4 : st.source.getD st.current '\x00' = '}'
  · rw [if_pos h4, Except.ok.injEq] at hok
    subst hok
    exact stepOk_addToken_ext st _ (ext_advance1 st hb (by rw [h4]; decide))
      (by show st.current < st.current + 1; omega) _ (by decide) none
  rw [if_neg h4] at hok
  by_cases h5 : st.source.getD st.current '\x00' = ','
  · rw [if_pos h5, Except.ok.injEq] at hok
    subst hok
    exact stepOk_addToken_ext st _ (ext_advance1 st hb (by rw [h5]; decide))
      (by show st.current < st.current + 1; omega) _ (by decide) none
  rw [if_neg h5] at hok
  by_cases h6 : st.source.getD st.current '\x00' = '.'
  · rw [if_pos h6, Except.ok.injEq] at hok
    subst hok
    exact stepOk_addToken_ext st _ (ext_advance1 st hb (by rw [h6]; decide))
      (by show st.current < st.current + 1; omega) _ (by decide) none
  rw [if_neg h6] at hok
  by_cases h7 : st.source.getD st.current '\x00' = '-'
  · rw [if_pos h7, Except.ok.injEq] at hok
    subst hok
    exact stepOk_addToken_ext st _ (ext_advance1 st hb (by rw [h7]; decide))
      (by show st.current < st.current + 1; omega) _ (by decide) none
  rw [if_neg h7] at hok
  by_cases h8 : st.source.getD st.current '\x00' = '+'
  · rw [if_pos h8, Except.ok.injEq] at hok
    subst hok
    exact stepOk_addToken_ext st _ (ext_advance1 st hb (by rw [h8]; decide))
      (by show st.current < st.current + 1; omega) _ (by decide) none
  rw [if_neg h8] at hok
  by_cases h9 : st.source.getD st.current '\x00' = ';'
  · rw [if_pos h9, Except.ok.injEq] at hok
    subst hok
    exact stepOk_addToken_ext st _ (ext_advance1 st hb (by rw [h9]; decide))
      (by show st.current < st.current + 1; omega) _ (by decide) none
  rw [if_neg h9] at hok
  by_cases h10 : st.source.getD st.current '\x00' = '*'
  · rw [if_pos h10, Except.ok.injEq] at hok
    subst hok
    exact stepOk_addToken_ext st _ (ext_advance1 st hb (by rw [h10]; decide))
      (by show st.current < st.current + 1; omega) _ (by decide) none
  rw [if_neg h10] at hok
  by_cases h11 : st.source.getD st.current '\x00' = '!'
  · rw [if_pos h11] at hok
    dsimp only at hok
    rcases matchCh_spec { st with current := st.current + 1 } '=' with ⟨m1, m2, mlt, mch⟩ | ⟨m1, m2⟩
    · rw [m1, m2, if_pos rfl, Except.ok.injEq] at hok
      subst hok
      have mlt' : st.current + 1 < st.source.length := mlt
      have mch' : st.source.getD (st.current + 1) '\x00' = '=' := mch
      exact stepOk_twoChar st hb mlt' (by rw [h11]; decide) (by rw [mch']; decide) _ (by decide) none
    · rw [m1, m2, if_neg (by decide : ¬ (false = true)), Except.ok.injEq] at hok
      subst hok
      exact stepOk_addToken_ext st _ (ext_advance1 st hb (by rw [h11]; decide))
        (by show st.current < st.current + 1; omega) _ (by decide) none
  rw [if_neg h11] at hok
  by_cases h12 : st.source.getD st.current '\x00' = '='
  · rw [if_pos h12] at hok
    dsimp only at hok
    rcases matchCh_spec { st with current := st.current + 1 } '=' with ⟨m1, m2, mlt, mch⟩ | ⟨m1, m2⟩
    · rw [m1, m2, if_pos rfl, Except.ok.injEq] at hok
      subst hok
      have mlt' : st.current + 1 < st.source.length := mlt
      have mch' : st.source.getD (st.current + 1) '\x00' = '=' := mch
      exact stepOk_twoChar st hb mlt' (by rw [h12]; decide) (by rw [mch']; decide) _ (by decide) none
    · rw [m1, m2, if_neg (by decide : ¬ (false = true)), Except.ok.injEq] at hok
      subst hok
      exact stepOk_addToken_ext st _ (ext_advance1 st hb (by rw [h12]; decide))
        (by show st.current < st.current + 1; omega) _ (by decide) none
  rw [if_neg h12] at hok
  by_cases h13 : st.source.getD st.current '\x00' = '<'
  · rw [if_pos h13] at hok
    dsimp only at hok
    rcases matchCh_spec { st with current := st.current + 1 } '=' with ⟨m1, m2, mlt, mch⟩ | ⟨m1, m2⟩
    · rw [m1, m2, if_pos rfl, Except.ok.injEq] at hok
      subst hok
      have mlt' : st.current + 1 < st.source.length := mlt
      have mch' : st.source.getD (st.current + 1) '\x00' = '=' := mch
      exact stepOk_twoChar st hb mlt' (by rw [h13]; decide) (by rw [mch']; decide) _ (by decide) none
    · rw [m1, m2, if_neg (by decide : ¬ (false = true)), Except.ok.injEq] at hok
      subst hok
      exact stepOk_addToken_ext st _ (ext_advance1 st hb (by rw [h13]; decide))
        (by show st.current < st.current + 1; omega) _ (by decide) none
  rw [if_neg h13] at hok
  by_cases h14 : st.source.getD st.current '\x00' = '>'
  · rw [if_pos h14] at hok
    dsimp only at hok
    rcases matchCh_spec { st with current := st.current + 1 } '=' with ⟨m1, m2, mlt, mch⟩ | ⟨m1, m2⟩
    · rw [m1, m2, if_pos rfl, Except.ok.injEq] at hok
      subst hok
      have mlt' : st.current + 1 < st.source.length := mlt
      have mch' : st.source.getD (st.current + 1) '\x00' = '=' := mch
      exact stepOk_twoChar st hb mlt' (by rw [h14]; decide) (by rw [mch']; decide) _ (by decide) none
    · rw [m1, m2, if_neg (by decide : ¬ (false = true)), Except.ok.injEq] at hok
      subst hok
      exact stepOk_addToken_ext st _ (ext_advance1 st hb (by rw [h14]; decide))
        (by show st.current < st.current + 1; omega) _ (by decide) none
  rw [if_neg h14] at hok
  by_cases h15 : st.source.getD st.current '\x00' = '/'
  · rw [if_pos h15] at hok
    dsimp only at hok
    rcases matchCh_spec { st with current := st.current + 1 } '/' with ⟨m1, m2, mlt, mch⟩ | ⟨m1, m2⟩
    · rw [m1, m2, if_pos rfl, Except.ok.injEq] at hok
      subst hok
      have mlt' : st.current + 1 < st.source.length := mlt
      have mch' : st.source.getD (st.current + 1) '\x00' = '/' := mch
      exact stepOk_comment st hb mlt' (by rw [h15]; decide) (by rw [mch']; decide)
    · rw [m1, m2, if_neg (by decide : ¬ (false = true)), Except.ok.injEq] at hok
      subst hok
      exact stepOk_addToken_ext st _ (ext_advance1 st hb (by rw [h15]; decide))
        (by show st.current < st.current + 1; omega) _ (by decide) none
  rw [if_neg h15] at hok
  by_cases h16 : st.source.getD st.current '\x00' = ' ' ∨
      st.source.getD st.current '\x00' = '\r' ∨ st.source.getD st.current '\x00' = '\t'
  · rw [if_pos h16, Except.ok.injEq] at hok
    subst hok
    refine stepOk_of_ext st _ (ext_advance1 st hb ?_) (by show st.current < st.current + 1; omega)
    rcases h16 with h | h | h <;> rw [h] <;> decide
  rw [if_neg h16] at hok
  by_cases h17 : st.source.getD st.current '\x00' = '\n'
  · rw [if_pos h17, Except.ok.injEq] at hok
    subst hok
    exact stepOk_newline st hb h17
  rw [if_neg h17] at hok
  by_cases h18 : st.source.getD st.current '\x00' = '"'
  · rw [if_pos h18] at hok
    have hs := scanString_ok { st with current := st.current + 1 } st'
      (by show st.current + 1 ≤ st.source.length; omega) hok
    exact stepOk_of_ext_stepOk (ext_advance1 st hb (by rw [h18]; decide)) hs.1
  rw [if_neg h18] at hok
  by_cases h19 : Scanner.isDigit (st.source.getD st.current '\x00') = true
  · rw [if_pos h19, Except.ok.injEq] at hok
    subst hok
    refine stepOk_scanNumber st hb ?_
    intro he
    rw [he] at h19
    exact absurd h19 (by decide)
  rw [if_neg h19] at hok
  by_cases h20 : Scanner.isAlpha (st.source.getD st.current '\x00') = true
  · rw [if_pos h20, Except.ok.injEq] at hok
    subst hok
    refine stepOk_scanIdentifier st hb ?_
    intro he
    rw [he] at h20
    exact absurd h20 (by decide)
  rw [if_neg h20] at hok
  exact absurd hok (by simp)

end Compiler

namespace Compiler

theorem oslices_mono (src : List Char) (ts : List Token) :
    ∀ (i j j' : Nat), OSlices src i ts j → j ≤ j' → OSlices src i ts j' := by
  induction ts with
  | nil =>
    intro i j j' h hj
    simp only [OSlices] at h ⊢
    omega
  | cons t ts ih =>
    intro i j j' h hj
    obtain ⟨a, b, ha, hab, hlex, hrest⟩ := h
    exact ⟨a, b, ha, hab, hlex, ih b j j' hrest hj⟩

theorem oslices_snoc (src : List Char) (ts : List Token) :
    ∀ (i j a b : Nat) (t : Token), OSlices src i ts j → j ≤ a → a < b →
      t.lexeme = slice src a b → OSlices src i (ts ++ [t]) b := by
  induction ts with
  | nil =>
    intro i j a b t h hja hab hlex
    simp only [OSlices] at h
    refine ⟨a, b, by omega, hab, hlex, ?_⟩
    show OSlices src b [] b
    simp only [OSlices]
    omega
  | cons u ts ih =>
    intro i j a b t h hja hab hlex
    obtain ⟨a', b', ha', hab', hlex', hrest⟩ := h
    exact ⟨a', b', ha', hab', hlex', ih b' j a b t hrest hja hab hlex⟩

theorem oslices_le (src : List Char) (ts : List Token) :
    ∀ (i j : Nat), OSlices src i ts j → i ≤ j := by
  induction ts with
  | nil =>
    intro i j h
    simpa only [OSlices] using h
  | cons t ts ih =>
    intro i j h
    obtain ⟨a, b, ha, hab, _, hrest⟩ := h
    have := ih b j hrest
    omega

theorem oslices_lexeme_ne (src : List Char) (ts : List Token) :
    ∀ (i j : Nat), OSlices src i ts j → j ≤ src.length → ∀ t ∈ ts, t.lexeme ≠ [] := by
  induction ts with
  | nil => intro i j _ _ t ht; cases ht
  | cons u ts ih =>
    intro i j h hj t ht
    obtain ⟨a, b, ha, hab, hlex, hrest⟩ := h
    rcases List.mem_cons.mp ht with rfl | ht
    · rw [hlex]
      have hbj : b ≤ j := oslices_le src ts b j hrest
      exact slice_ne_nil src a b hab (by omega)
    · exact ih b j hrest hj t ht

theorem scanInv_init (src : List Char) : ScanInv ⟨src, [], 0, 0, 1⟩ := by
  refine ⟨by show 0 ≤ src.length; omega, ?_, ?_, ?_⟩
  · show 1 = 1 + nlCount (src.take 0)
    simp [nlCount]
  · show OSlices src 0 [] 0
    simp only [OSlices]
    omega
  · intro t ht
    cases ht

theorem scanInv_step (st st' : Scanner) (hInv : ScanInv st)
    (hok : Scanner.scanToken { st with start := st.current } = .ok st')
    (hb : st.current < st.source.length) :
    ScanInv st' ∧ st'.source = st.source ∧ st.current < st'.current := by
  have hstep := scanToken_spec { st with start := st.current } st' hok
    (by show st.current < st.source.length; exact hb)
  obtain ⟨s1, t1, c1, l1, m1, n1, tk⟩ := hstep
  have s1' : st'.source = st.source := s1
  have c1' : st.current < st'.current := c1
  have l1' : st'.current ≤ st.source.length := l1
  have m1' : st.line ≤ st'.line := m1
  have n1' : st.line = 1 + nlCount (st.source.take st.current) →
      st'.line = 1 + nlCount (st.source.take st'.current) := n1
  obtain ⟨i1, i2, i3, i4⟩ := hInv
  have hline' := n1' i2
  refine ⟨⟨by rw [s1']; exact l1', by rw [s1']; exact hline', ?_, ?_⟩, s1', c1'⟩
  · rw [s1']
    rcases tk with tk | ⟨t, ht, hty, hlex, hlin⟩
    · have htk : st'.tokens = st.tokens := tk
      rw [htk]
      exact oslices_mono st.source st.tokens 0 st.current st'.current i3 (by omega)
    · have ht' : st'.tokens = st.tokens ++ [t] := ht
      have hlex' : t.lexeme = slice st.source st.current st'.current := hlex
      rw [ht']
      exact oslices_snoc st.source st.tokens 0 st.current st.current st'.current t i3
        (le_refl _) c1' hlex'
  · intro t ht
    rcases tk with tk | ⟨u, hu, huty, hulex, hulin⟩
    · have htk : st'.tokens = st.tokens := tk
      rw [htk] at ht
      obtain ⟨f1, f2, f3⟩ := i4 t ht
      exact ⟨f1, f2, by omega⟩
    · have hu' : st'.tokens = st.tokens ++ [u] := hu
      rw [hu'] at ht
      rcases List.mem_append.mp ht with ht | ht
      · obtain ⟨f1, f2, f3⟩ := i4 t ht
        exact ⟨f1, f2, by omega⟩
      · have : t = u := List.mem_singleton.mp ht
        subst this
        refine ⟨huty, ?_, le_of_eq hulin⟩
        rw [hulin, hline']
        omega

end Compiler

namespace Compiler

theorem scanToken_error (st : Scanner) (e : ScanErr)
    (h : Scanner.scanToken st = .error e) : e ≠ ScanErr.outOfFuel := by
  rw [Scanner.scanToken] at h
  dsimp only [Scanner.advance] at h
  rw [Scanner.dispatchChar] at h
  by_cases h1 : st.source.getD st.current '\x00' = '('
  · rw [if_pos h1] at h
    cases h
  rw [if_neg h1] at h
  by_cases h2 : st.source.getD st.current '\x00' = ')'
  · rw [if_pos h2] at h
    cases h
  rw [if_neg h2] at h
  by_cases h3 : st.source.getD st.current '\x00' = '{'
  · rw [if_pos h3] at h
    cases h
  rw [if_neg h3] at h
  by_cases h4 : st.source.getD st.current '\x00' = '}'
  · rw [if_pos h4] at h
    cases h
  rw [if_neg h4] at h
  by_cases h5 : st.source.getD st.current '\x00' = ','
  · rw [if_pos h5] at h
    cases h
  rw [if_neg h5] at h
  by_cases h6 : st.source.getD st.current '\x00' = '.'
  · rw [if_pos h6] at h
    cases h
  rw [if_neg h6] at h
  by_cases h7 : st.source.getD st.current '\x00' = '-'
  · rw [if_pos h7] at h
    cases h
  rw [if_neg h7] at h
  by_cases h8 : st.source.getD st.current '\x00' = '+'
  · rw [if_pos h8] at h
    cases h
  rw [if_neg h8] at h
  by_cases h9 : st.source.getD st.current '\x00' = ';'
  · rw [if_pos h9] at h
    cases h
  rw [if_neg h9] at h
  by_cases h10 : st.source.getD st.current '\x00' = '*'
  · rw [if_pos h10] at h
    cases h
  rw [if_neg h10] at h
  by_cases h11 : st.source.getD st.current '\x00' = '!'
  · rw [if_pos h11] at h
    dsimp only at h
    cases h
  rw [if_neg h11] at h
  by_cases h12 : st.source.getD st.current '\x00' = '='
  · rw [if_pos h12] at h
    dsimp only at h
    cases h
  rw [if_neg h12] at h
  by_cases h13 : st.source.getD st.current '\x00' = '<'
  · rw [if_pos h13] at h
    dsimp only at h
    cases h
  rw [if_neg h13] at h
  by_cases h14 : st.source.getD st.current '\x00' = '>'
  · rw [if_pos h14] at h
    dsimp only at h
    cases h
  rw [if_neg h14] at h
  by_cases h15 : st.source.getD st.current '\x00' = '/'
  · rw [if_pos h15] at h
    dsimp only at h
    split_ifs at h
  rw [if_neg h15] at h
  by_cases h16 : st.source.getD st.current '\x00' = ' ' ∨
      st.source.getD st.current '\x00' = '\r' ∨ st.source.getD st.current '\x00' = '\t'
  · rw [if_pos h16] at h
    cases h
  rw [if_neg h16] at h
  by_cases h17 : st.source.getD st.current '\x00' = '\n'
  · rw [if_pos h17] at h
    cases h
  rw [if_neg h17] at h
  by_cases h18 : st.source.getD st.current '\x00' = '"'
  · rw [if_pos h18] at h
    simp only [Scanner.scanString] at h
    split_ifs at h
    rw [Except.error.injEq] at h
    subst h
    simp
  rw [if_neg h18] at h
  by_cases h19 : Scanner.isDigit (st.source.getD st.current '\x00') = true
  · rw [if_pos h19] at h
    cases h
  rw [if_neg h19] at h
  by_cases h20 : Scanner.isAlpha (st.source.getD st.current '\x00') = true
  · rw [if_pos h20] at h
    cases h
  rw [if_neg h20] at h
  rw [Except.error.injEq] at h
  subst h
  simp

theorem scanLoop_spec : ∀ (fuel : Nat) (st : Scanner), ScanInv st →
    st.source.length - st.current < fuel →
    (∀ e, Scanner.scanLoop fuel st = .error e → e ≠ ScanErr.outOfFuel) ∧
    (∀ st', Scanner.scanLoop fuel st = .ok st' →
      ScanInv st' ∧ st'.source = st.source ∧ st'.source.length ≤ st'.current) := by
  intro fuel
  induction fuel with
  | zero =>
    intro st _ h
    omega
  | succ fuel ih =>
    intro st hInv hmeas
    rw [Scanner.scanLoop]
    by_cases hend : st.isAtEnd = true
    · rw [if_pos hend]
      constructor
      · intro e he
        cases he
      · intro st' h
        rw [Except.ok.injEq] at h
        subst h
        refine ⟨hInv, rfl, ?_⟩
        simp only [Scanner.isAtEnd, decide_eq_true_eq] at hend
        exact hend
    · rw [if_neg hend]
      have hb : st.current < st.source.length := by
        simp only [Scanner.isAtEnd, decide_eq_true_eq, Nat.not_le] at hend
        exact hend
      cases hcall : Scanner.scanToken { st with start := st.current } with
      | error e =>
        simp only [hcall]
        constructor
        · intro e' he'
          rw [Except.error.injEq] at he'
          subst he'
          exact scanToken_error _ _ hcall
        · intro st' h
          cases h
      | ok st2 =>
        simp only [hcall]
        obtain ⟨hInv2, hsrc2, hcur2⟩ := scanInv_step st st2 hInv hcall hb
        have hrec := ih st2 hInv2 (by rw [hsrc2]; omega)
        constructor
        · exact hrec.1
        · intro st' h
          obtain ⟨j1, j2, j3⟩ := hrec.2 st' h
          exact ⟨j1, by rw [j2, hsrc2], j3⟩

end Compiler

namespace Compiler

theorem takeWhile_of_not_contains (c : Char) :
    ∀ l : List Char, l.contains c = false → l.takeWhile (fun x => !(x == c)) = l := by
  intro l
  induction l with
  | nil => intro _; rfl
  | cons a t ih =>
    intro h
    simp only [List.contains_cons, Bool.or_eq_false_iff] at h
    have hne : a ≠ c := by
      have hc := h.1
      simp only [beq_eq_false_iff_ne] at hc
      exact fun he => hc he.symm
    rw [List.takeWhile_cons_of_pos
      (by simp only [Bool.not_eq_true', beq_eq_false_iff_ne]; exact hne)]
    rw [ih h.2]

/-- Claim C8: `Scanner.scan_tokens` terminates — each successful `scan_token`
call strictly advances the cursor, and with fuel `length + 1` the scan loop
never exhausts its fuel — and a normal return is a non-empty token list whose
last element is the EOF token, EOF occurring exactly once. -/
theorem scan_tokens_terminates_eof :
    (∀ st st', Scanner.scanToken st = .ok st' → st.current < st.source.length →
      st.current < st'.current) ∧
    (∀ src : List Char, scanTokens src ≠ .error ScanErr.outOfFuel) ∧
    (∀ (src : List Char) (ts : List Token), scanTokens src = .ok ts →
      ts ≠ [] ∧ (∃ n, ts.getLast? = some ⟨TokenType.EOF, [], none, n⟩) ∧
      ts.countP (fun t => t.type == TokenType.EOF) = 1) := by
  refine ⟨?_, ?_, ?_⟩
  · intro st st' hok hb
    exact (scanToken_spec st st' hok hb).2.2.1
  · intro src hcon
    unfold scanTokens at hcon
    cases hloop : Scanner.scanLoop (src.length + 1) ⟨src, [], 0, 0, 1⟩ with
    | error e =>
      rw [hloop] at hcon
      have hsp := (scanLoop_spec (src.length + 1) ⟨src, [], 0, 0, 1⟩ (scanInv_init src)
        (by show src.length - 0 < src.length + 1; omega)).1 e hloop
      rw [Except.error.injEq] at hcon
      exact hsp hcon
    | ok st1 =>
      rw [hloop] at hcon
      cases hcon
  · intro src ts hok
    unfold scanTokens at hok
    cases hloop : Scanner.scanLoop (src.length + 1) ⟨src, [], 0, 0, 1⟩ with
    | error e =>
      rw [hloop] at hok
      cases hok
    | ok st1 =>
      rw [hloop] at hok
      rw [Except.ok.injEq] at hok
      subst hok
      have hsp := (scanLoop_spec (src.length + 1) ⟨src, [], 0, 0, 1⟩ (scanInv_init src)
        (by show src.length - 0 < src.length + 1; omega)).2 st1 hloop
      obtain ⟨⟨i1, i2, i3, i4⟩, hsrc, hend⟩ := hsp
      refine ⟨by simp, ⟨st1.line, ?_⟩, ?_⟩
      · rw [List.getLast?_concat]
      · rw [List.countP_append]
        have h0 : st1.tokens.countP (fun t => t.type == TokenType.EOF) = 0 := by
          rw [List.countP_eq_zero]
          intro t ht
          have := (i4 t ht).1
          simpa using this
        rw [h0]
        rfl

theorem scan_tokens_terminates_eof_witness :
    (0 : Nat) < 1 ∧ scanTokens [] ≠ .error ScanErr.outOfFuel ∧
    ([⟨TokenType.LEFT_PAREN, ['('], none, 1⟩, ⟨TokenType.EOF, [], none, 1⟩] : List Token) ≠ [] :=
  ⟨scan_tokens_terminates_eof.1 ⟨['('], [], 0, 0, 1⟩
      ⟨['('], [⟨TokenType.LEFT_PAREN, ['('], none, 1⟩], 0, 1, 1⟩ rfl (by decide),
   scan_tokens_terminates_eof.2.1 [],
   (scan_tokens_terminates_eof.2.2 ['(']
      [⟨TokenType.LEFT_PAREN, ['('], none, 1⟩, ⟨TokenType.EOF, [], none, 1⟩] rfl).1⟩

/-- Claim C2 (counterexample): scanning a two-line input produces two tokens
with identical lexemes but different attached line numbers, so a token does
carry position information beyond its raw text. -/
theorem token_carries_line_cex :
    scanTokens ['(', '\n', '('] = .ok
      [⟨TokenType.LEFT_PAREN, ['('], none, 1⟩, ⟨TokenType.LEFT_PAREN, ['('], none, 2⟩,
       ⟨TokenType.EOF, [], none, 2⟩] ∧
    (⟨TokenType.LEFT_PAREN, ['('], none, 1⟩ : Token).lexeme =
      (⟨TokenType.LEFT_PAREN, ['('], none, 2⟩ : Token).lexeme ∧
    (⟨TokenType.LEFT_PAREN, ['('], none, 1⟩ : Token).line ≠
      (⟨TokenType.LEFT_PAREN, ['('], none, 2⟩ : Token).line :=
  ⟨rfl, rfl, by decide⟩

/-- Claim C2 (amended): every token of `scan_tokens` carries, in addition to
its raw text, a 1-based line number, bounded by one plus the number of
newlines in the source; no column is attached (the `Token` record has no
such field). -/
theorem token_line_bounds (src : List Char) (ts : List Token)
    (h : scanTokens src = .ok ts) :
    ∀ t ∈ ts, 1 ≤ t.line ∧ t.line ≤ 1 + nlCount src := by
  unfold scanTokens at h
  cases hloop : Scanner.scanLoop (src.length + 1) ⟨src, [], 0, 0, 1⟩ with
  | error e =>
    rw [hloop] at h
    cases h
  | ok st1 =>
    rw [hloop] at h
    rw [Except.ok.injEq] at h
    subst h
    have hsp := (scanLoop_spec (src.length + 1) ⟨src, [], 0, 0, 1⟩ (scanInv_init src)
      (by show src.length - 0 < src.length + 1; omega)).2 st1 hloop
    obtain ⟨⟨i1, i2, i3, i4⟩, hsrc, hend⟩ := hsp
    have hsrc' : st1.source = src := hsrc
    have hbound : st1.line ≤ 1 + nlCount src := by
      rw [i2, ← hsrc']
      have := nlCount_take_le st1.source st1.current
      omega
    intro t ht
    rcases List.mem_append.mp ht with ht | ht
    · obtain ⟨f1, f2, f3⟩ := i4 t ht
      exact ⟨f2, by omega⟩
    · have heq : t = ⟨TokenType.EOF, [], none, st1.line⟩ := List.mem_singleton.mp ht
      subst heq
      refine ⟨?_, hbound⟩
      show 1 ≤ st1.line
      rw [i2]
      omega

theorem token_line_bounds_witness :
    1 ≤ (⟨TokenType.EOF, [], none, 2⟩ : Token).line ∧
    (⟨TokenType.EOF, [], none, 2⟩ : Token).line ≤ 1 + nlCount ['\n'] :=
  token_line_bounds ['\n'] [⟨TokenType.EOF, [], none, 2⟩] rfl _ (by simp)

/-- Claim C3 (counterexample): the token sequence produced for the empty
source consists of the EOF token alone, whose lexeme is empty, so the
produced sequence does contain an empty token. -/
theorem empty_eof_lexeme_cex :
    scanTokens [] = .ok [⟨TokenType.EOF, [], none, 1⟩] ∧
    (⟨TokenType.EOF, [], none, 1⟩ : Token).lexeme = [] :=
  ⟨rfl, rfl⟩

/-- Claim C3 (amended): token order matches source order — the lexemes of the
tokens before the final EOF token are in-order, non-overlapping slices of the
source — and every token except that final EOF token is non-empty. -/
theorem tokens_ordered_nonempty (src : List Char) (ts : List Token)
    (h : scanTokens src = .ok ts) :
    OSlices src 0 ts.dropLast src.length ∧ ∀ t ∈ ts.dropLast, t.lexeme ≠ [] := by
  unfold scanTokens at h
  cases hloop : Scanner.scanLoop (src.length + 1) ⟨src, [], 0, 0, 1⟩ with
  | error e =>
    rw [hloop] at h
    cases h
  | ok st1 =>
    rw [hloop] at h
    rw [Except.ok.injEq] at h
    subst h
    have hsp := (scanLoop_spec (src.length + 1) ⟨src, [], 0, 0, 1⟩ (scanInv_init src)
      (by show src.length - 0 < src.length + 1; omega)).2 st1 hloop
    obtain ⟨⟨i1, i2, i3, i4⟩, hsrc, hend⟩ := hsp
    have hsrc' : st1.source = src := hsrc
    rw [List.dropLast_concat]
    have hcur : st1.current ≤ src.length := by rw [← hsrc']; exact i1
    have hsl : OSlices src 0 st1.tokens st1.current := by rw [← hsrc']; exact i3
    have hmono := oslices_mono src st1.tokens 0 st1.current src.length hsl hcur
    exact ⟨hmono, oslices_lexeme_ne src st1.tokens 0 src.length hmono (le_refl _)⟩

theorem tokens_ordered_nonempty_witness :
    OSlices ['(', ')'] 0 [⟨TokenType.LEFT_PAREN, ['('], none, 1⟩,
      ⟨TokenType.RIGHT_PAREN, [')'], none, 1⟩] 2 ∧
    ∀ t ∈ [(⟨TokenType.LEFT_PAREN, ['('], none, 1⟩ : Token),
      ⟨TokenType.RIGHT_PAREN, [')'], none, 1⟩], Token.lexeme t ≠ [] :=
  tokens_ordered_nonempty ['(', ')']
    [⟨TokenType.LEFT_PAREN, ['('], none, 1⟩, ⟨TokenType.RIGHT_PAREN, [')'], none, 1⟩,
     ⟨TokenType.EOF, [], none, 1⟩] rfl

end Compiler

namespace Compiler

/-- Claim C4 (counterexample): the integer-shaped literal `123` is scanned to
a NUMBER token whose literal is the `float(...)` of its lexeme — the same
kind (and here the same value) as the literal of `123.0`.  No integer parse
is attempted anywhere in `Scanner.number`, and the literal type has no
integer constructor. -/
theorem number_int_kind_cex :
    scanTokens ['1', '2', '3'] = .ok
      [⟨TokenType.NUMBER, ['1', '2', '3'], some (.num (pyFloat ['1', '2', '3'])), 1⟩,
       ⟨TokenType.EOF, [], none, 1⟩] ∧
    pyFloat ['1', '2', '3'] = pyFloat ['1', '2', '3', '.', '0'] := by
  constructor
  · rfl
  · have h1 : pyFloat ['1', '2', '3'] = ((123 : ℕ) : ℚ) := rfl
    have h2 : pyFloat ['1', '2', '3', '.', '0'] =
        ((123 : ℕ) : ℚ) + ((0 : ℕ) : ℚ) / (10 : ℚ) ^ 1 := rfl
    rw [h1, h2]
    norm_num

set_option maxHeartbeats 1600000 in
/-- Claim C4 (amended): `Scanner.number` performs a single floating-point
conversion — it appends exactly one NUMBER token whose literal is
`float(lexeme)` (`pyFloat`), never an integer-kind value. -/
theorem number_always_float (st : Scanner) :
    (Scanner.scanNumber st).source = st.source ∧
    (Scanner.scanNumber st).start = st.start ∧
    (Scanner.scanNumber st).line = st.line ∧
    (Scanner.scanNumber st).tokens = st.tokens ++
      [⟨TokenType.NUMBER, slice st.source st.start (Scanner.scanNumber st).current,
        some (.num (pyFloat (slice st.source st.start (Scanner.scanNumber st).current))),
        st.line⟩] := by
  have hd1 : Scanner.isDigit '\n' = false := by decide
  obtain ⟨a1, a2, a3, a4, a5, a6, a7⟩ := chomp_spec Scanner.isDigit st
  have aL := chomp_line_eq Scanner.isDigit hd1 st
  simp only [Scanner.scanNumber]
  split
  · rename_i hdot
    obtain ⟨b1, b2, b3, b4, b5, b6, b7⟩ := chomp_spec Scanner.isDigit
      { Scanner.chomp Scanner.isDigit st with
        current := (Scanner.chomp Scanner.isDigit st).current + 1 }
    have bL := chomp_line_eq Scanner.isDigit hd1
      { Scanner.chomp Scanner.isDigit st with
        current := (Scanner.chomp Scanner.isDigit st).current + 1 }
    have e1 : (Scanner.chomp Scanner.isDigit
        { Scanner.chomp Scanner.isDigit st with
          current := (Scanner.chomp Scanner.isDigit st).current + 1 }).source = st.source := by
      have b1' : (Scanner.chomp Scanner.isDigit
          { Scanner.chomp Scanner.isDigit st with
            current := (Scanner.chomp Scanner.isDigit st).current + 1 }).source =
          (Scanner.chomp Scanner.isDigit st).source := b1
      rw [b1', a1]
    have e2 : (Scanner.chomp Scanner.isDigit
        { Scanner.chomp Scanner.isDigit st with
          current := (Scanner.chomp Scanner.isDigit st).current + 1 }).start = st.start := by
      have b2' : (Scanner.chomp Scanner.isDigit
          { Scanner.chomp Scanner.isDigit st with
            current := (Scanner.chomp Scanner.isDigit st).current + 1 }).start =
          (Scanner.chomp Scanner.isDigit st).start := b2
      rw [b2', a2]
    have e3 : (Scanner.chomp Scanner.isDigit
        { Scanner.chomp Scanner.isDigit st with
          current := (Scanner.chomp Scanner.isDigit st).current + 1 }).line = st.line := by
      have bL' : (Scanner.chomp Scanner.isDigit
          { Scanner.chomp Scanner.isDigit st with
            current := (Scanner.chomp Scanner.isDigit st).current + 1 }).line =
          (Scanner.chomp Scanner.isDigit st).line := bL
      rw [bL', aL]
    have e4 : (Scanner.chomp Scanner.isDigit
        { Scanner.chomp Scanner.isDigit st with
          current := (Scanner.chomp Scanner.isDigit st).current + 1 }).tokens = st.tokens := by
      have b3' : (Scanner.chomp Scanner.isDigit
          { Scanner.chomp Scanner.isDigit st with
            current := (Scanner.chomp Scanner.isDigit st).current + 1 }).tokens =
          (Scanner.chomp Scanner.isDigit st).tokens := b3
      rw [b3', a3]
    refine ⟨e1, e2, e3, ?_⟩
    rw [addToken_tokens, addToken_current, e4, e1, e2, e3]
  · refine ⟨a1, a2, aL, ?_⟩
    rw [addToken_tokens, addToken_current, a3, a1, a2, aL]

/-- Claim C10: a string opened by a double quote and never closed makes
`Scanner.string` (and hence `scan_tokens`) fail with the unterminated-string
SyntaxError, and when the closing quote exists the STRING token's literal is
exactly the source characters strictly between the two quotes (the maximal
quote-free run after the opening quote, delimited by a closing quote). -/
theorem string_scan_spec :
    (∀ st : Scanner, st.current ≤ st.source.length →
      (st.source.drop st.current).contains '"' = false →
      ∃ n, Scanner.scanString st = .error (.unterminatedString n)) ∧
    (∀ st st' : Scanner, st.start + 1 = st.current → st.current ≤ st.source.length →
      Scanner.scanString st = .ok st' →
      st'.tokens = st.tokens ++ [⟨TokenType.STRING, slice st.source st.start st'.current,
        some (.str ((st.source.drop st.current).takeWhile (fun c => !(c == '"')))),
        st'.line⟩] ∧
      st.source.getD (st.current +
        ((st.source.drop st.current).takeWhile (fun c => !(c == '"'))).length) '\x00' = '"') ∧
    scanTokens ['"', 'a', 'b'] = .error (.unterminatedString 1) ∧
    scanTokens ['"', 'a', '"'] = .ok
      [⟨TokenType.STRING, ['"', 'a', '"'], some (.str ['a']), 1⟩,
       ⟨TokenType.EOF, [], none, 1⟩] := by
  refine ⟨?_, ?_, rfl, rfl⟩
  · intro st hb hnone
    have hcur := chomp_current (fun c => !(c == '"')) st hb
    rw [takeWhile_of_not_contains '"' _ hnone] at hcur
    have hlen : (Scanner.chomp (fun c => !(c == '"')) st).current = st.source.length := by
      rw [hcur, List.length_drop]
      omega
    have hend : (Scanner.chomp (fun c => !(c == '"')) st).isAtEnd = true := by
      obtain ⟨c1, _, _, _, _, _, _⟩ := chomp_spec (fun c => !(c == '"')) st
      simp only [Scanner.isAtEnd, decide_eq_true_eq, c1, hlen]
      omega
    refine ⟨(Scanner.chomp (fun c => !(c == '"')) st).line, ?_⟩
    simp only [Scanner.scanString]
    rw [if_pos hend]
  · intro st st' hstart hb hok
    have hcur := chomp_current (fun c => !(c == '"')) st hb
    have hq0 := chomp_exit (fun c => !(c == '"')) st
    obtain ⟨c1, c2, c3, c4, c5, c6, c7⟩ := chomp_spec (fun c => !(c == '"')) st
    simp only [Scanner.scanString, Scanner.advance] at hok
    by_cases hend : (Scanner.chomp (fun c => !(c == '"')) st).isAtEnd = true
    · rw [if_pos hend] at hok
      exact absurd hok (by simp)
    · rw [if_neg hend] at hok
      rw [Except.ok.injEq] at hok
      subst hok
      have hq : (Scanner.chomp (fun c => !(c == '"')) st).peek = '"' := by
        rcases hq0 with hx | hx
        · simpa using hx
        · exact absurd hx hend
      have hlt : (Scanner.chomp (fun c => !(c == '"')) st).current <
          (Scanner.chomp (fun c => !(c == '"')) st).source.length := by
        simp only [Scanner.isAtEnd, decide_eq_true_eq, Nat.not_le] at hend
        omega
      have hch : (Scanner.chomp (fun c => !(c == '"')) st).source.getD
          (Scanner.chomp (fun c => !(c == '"')) st).current '\x00' = '"' := by
        rw [← peek_eq_getD _ hlt]
        exact hq
      constructor
      · show _ ++ _ = _
        rw [c3, c1, c2]
        have hval : slice st.source (st.start + 1)
            ((Scanner.chomp (fun c => !(c == '"')) st).current + 1 - 1) =
            (st.source.drop st.current).takeWhile (fun c => !(c == '"')) := by
          have hstep : (Scanner.chomp (fun c => !(c == '"')) st).current + 1 - 1 =
              st.current + ((st.source.drop st.current).takeWhile (fun c => !(c == '"'))).length := by
            omega
          rw [hstep, hstart]
          show (st.source.drop st.current).take
              (st.current + ((st.source.drop st.current).takeWhile (fun c => !(c == '"'))).length -
                st.current) = _
          rw [Nat.add_sub_cancel_left]
          exact takeWhile_take_eq _
        rw [hval]
        rfl
      · show st.source.getD _ '\x00' = '"'
        rw [← hcur]
        have hc1 : (Scanner.chomp (fun c => !(c == '"')) st).source = st.source := c1
        rw [← hc1]
        exact hch

theorem string_scan_spec_witness :
    (∃ n, Scanner.scanString ⟨['"', 'a', 'b'], [], 0, 1, 1⟩ =
      .error (.unterminatedString n)) ∧
    ((⟨['"', 'a', '"'], [⟨TokenType.STRING, ['"', 'a', '"'], some (.str ['a']), 1⟩],
        0, 3, 1⟩ : Scanner).tokens =
      (⟨['"', 'a', '"'], [], 0, 1, 1⟩ : Scanner).tokens ++
        [⟨TokenType.STRING, ['"', 'a', '"'], some (.str ['a']), 1⟩]) :=
  ⟨string_scan_spec.1 ⟨['"', 'a', 'b'], [], 0, 1, 1⟩ (by decide) (by decide),
   by
    have h := (string_scan_spec.2.1 ⟨['"', 'a', '"'], [], 0, 1, 1⟩
      ⟨['"', 'a', '"'], [⟨TokenType.STRING, ['"', 'a', '"'], some (.str ['a']), 1⟩],
        0, 3, 1⟩ rfl (by decide) rfl).1
    exact h⟩

end Compiler

namespace Compiler

theorem dfltTok_type : dfltTok.type = TokenType.EOF := rfl

theorem advance_preserves (ts : List Token)
    (hlast : (ts.getLastD dfltTok).type = TokenType.EOF)
    (st : PState) (hts : st.tokens = ts) (h : st.current < ts.length) :
    (Parser.advance st).2.tokens = ts ∧ (Parser.advance st).2.current < ts.length := by
  unfold Parser.advance
  dsimp only
  by_cases hend : Parser.isAtEnd st = true
  · rw [if_pos hend]
    exact ⟨hts, h⟩
  · rw [if_neg hend]
    refine ⟨hts, ?_⟩
    show st.current + 1 < ts.length
    have hpk : (Parser.peek st).type ≠ TokenType.EOF := by
      simpa [Parser.isAtEnd] using hend
    have hpeek : Parser.peek st = ts.getD st.current dfltTok := by
      rw [Parser.peek, hts]
    by_cases hlastpos : st.current = ts.length - 1
    · exfalso
      apply hpk
      rw [hpeek, hlastpos]
      have hne : ts ≠ [] := by
        intro hnil
        rw [hnil] at h
        simp at h
      rw [List.getD_eq_getElem?_getD, ← List.getLast?_eq_getElem?]
      rw [List.getLastD_eq_getLast?] at hlast
      exact hlast
    · omega

/-- Claim C9: on a token list ending in EOF (as `scan_tokens` produces), the
parser's cursor — written only by `Parser.advance` — stays strictly below the
token-list length after any number of advances from the initial state, so
`Parser.peek`'s indexing of `tokens[current]` is always in bounds and returns
the actual list element. -/
theorem parser_cursor_in_bounds (ts : List Token) (n : Nat) (hne : ts ≠ [])
    (hlast : (ts.getLastD dfltTok).type = TokenType.EOF) :
    (Parser.advanceIter n ⟨ts, 0⟩).current < ts.length ∧
    ts.get? (Parser.advanceIter n ⟨ts, 0⟩).current =
      some (Parser.peek (Parser.advanceIter n ⟨ts, 0⟩)) := by
  have key : ∀ (m : Nat) (st : PState), st.tokens = ts → st.current < ts.length →
      (Parser.advanceIter m st).tokens = ts ∧ (Parser.advanceIter m st).current < ts.length := by
    intro m
    induction m with
    | zero =>
      intro st h1 h2
      exact ⟨h1, h2⟩
    | succ m ih =>
      intro st h1 h2
      rw [Parser.advanceIter]
      obtain ⟨p1, p2⟩ := advance_preserves ts hlast st h1 h2
      exact ih _ p1 p2
  have h0 : (⟨ts, 0⟩ : PState).current < ts.length := by
    show 0 < ts.length
    exact List.length_pos.mpr hne
  obtain ⟨k1, k2⟩ := key n ⟨ts, 0⟩ rfl h0
  refine ⟨k2, ?_⟩
  rw [Parser.peek, k1]
  rw [List.get?_eq_getElem?, List.getD_eq_getElem?_getD,
    List.getElem?_eq_getElem k2]
  rfl

theorem parser_cursor_in_bounds_witness :
    (Parser.advanceIter 3 ⟨[⟨TokenType.EOF, [], none, 1⟩], 0⟩).current < 1 ∧
    [(⟨TokenType.EOF, [], none, 1⟩ : Token)].get?
        (Parser.advanceIter 3 ⟨[⟨TokenType.EOF, [], none, 1⟩], 0⟩).current =
      some (Parser.peek (Parser.advanceIter 3 ⟨[⟨TokenType.EOF, [], none, 1⟩], 0⟩)) :=
  parser_cursor_in_bounds [⟨TokenType.EOF, [], none, 1⟩] 3 (by simp) rfl

theorem isSyntaxErrR_map {α β : Type} (f : α → β) (x : Except PErr α) :
    isSyntaxErrR (x.map f) = isSyntaxErrR x := by
  cases x with
  | error e => cases e <;> rfl
  | ok a => rfl

theorem isSyntaxErrR_error_eq (α β : Type) (e : PErr) :
    isSyntaxErrR (@Except.error PErr α e) = isSyntaxErrR (@Except.error PErr β e) := by
  cases e <;> rfl

theorem syncLoop_no_syntax_err (fuel : Nat) :
    ∀ st : PState, isSyntaxErrR (Parser.syncLoop fuel st) = false := by
  induction fuel with
  | zero =>
    intro st
    rfl
  | succ fuel ih =>
    intro st
    rw [Parser.syncLoop]
    split_ifs
    · rfl
    · rfl
    · rfl
    · exact ih _

theorem synchronize_no_syntax_err (fuel : Nat) (st : PState) :
    isSyntaxErrR (Parser.synchronize fuel st) = false := by
  rw [Parser.synchronize]
  exact syncLoop_no_syntax_err fuel _

theorem declaration_no_syntax_err (fuel : Nat) (st : PState) :
    isSyntaxErrR (Parser.declaration fuel st) = false := by
  cases fuel with
  | zero => rfl
  | succ fuel =>
    rw [Parser.declaration]
    split
    · rfl
    · rename_i stE heq
      split
      · rfl
      · rename_i e heq2
        have hs := synchronize_no_syntax_err fuel stE
        rw [heq2] at hs
        exact (isSyntaxErrR_error_eq _ _ e).trans hs
    · rfl

theorem parseLoop_no_syntax_err (fuel : Nat) :
    ∀ st : PState, isSyntaxErrR (Parser.parseLoop fuel st) = false := by
  induction fuel with
  | zero =>
    intro st
    rfl
  | succ fuel ih =>
    intro st
    rw [Parser.parseLoop]
    split_ifs
    · rfl
    · simp only [bind, Except.bind]
      split
      · rename_i e heq
        have hd := declaration_no_syntax_err fuel st
        rw [heq] at hd
        exact (isSyntaxErrR_error_eq _ _ e).trans hd
      · rename_i p heq
        split
        · rename_i e heq2
          have hl := ih p.2
          rw [heq2] at hl
          exact hl
        · rfl

/-- Claim C1 (amended): a SyntaxError raised anywhere during parsing never
propagates to the caller of `Parser.parse`: `Parser.declaration` catches it,
synchronizes, and records `None` for the failed declaration, so `parse`
either returns normally (possibly with `None` entries) or exhausts its
recursion fuel — it never surfaces a SyntaxError. -/
theorem parse_never_syntax_error (fuel : Nat) (tokens : List Token) :
    isSyntaxErrR (Parser.parse fuel tokens) = false := by
  rw [Parser.parse, isSyntaxErrR_map]
  exact parseLoop_no_syntax_err fuel _

/-- Claim C1 (counterexample): on the token list `[var, EOF]`,
`Parser.var_declaration` raises a SyntaxError ("Expect variable name."), yet
`Parser.parse` returns normally with the recovered list `[None]` — the error
was caught inside `Parser.declaration`, not propagated to `parse`'s caller. -/
theorem parse_local_recovery_cex :
    Parser.varDeclaration 8
      ⟨[⟨TokenType.VAR, ['v', 'a', 'r'], none, 1⟩, ⟨TokenType.EOF, [], none, 1⟩], 1⟩ =
      .error (.syntaxErr msgExpectVarName
        ⟨[⟨TokenType.VAR, ['v', 'a', 'r'], none, 1⟩, ⟨TokenType.EOF, [], none, 1⟩], 1⟩) ∧
    Parser.parse 10 [⟨TokenType.VAR, ['v', 'a', 'r'], none, 1⟩, ⟨TokenType.EOF, [], none, 1⟩] =
      .ok [none] :=
  ⟨rfl, rfl⟩

end Compiler

namespace Scheme

/-- Claim C5: tokenizing and reading `"(+ 1 2"` (an opened list never closed)
fails with `MissingClosingParen`, while reading `")"` alone (a stray close)
fails with `UnexpectedClosingParen`; the two failure kinds are distinct
constructors of the error taxonomy. -/
theorem reader_paren_errors :
    readExpr 10 (tokenize ['(', '+', ' ', '1', ' ', '2']) =
      .error SchemeErr.MissingClosingParen ∧
    readExpr 10 (tokenize [')']) = .error SchemeErr.UnexpectedClosingParen ∧
    SchemeErr.MissingClosingParen ≠ SchemeErr.UnexpectedClosingParen :=
  ⟨rfl, rfl, by decide⟩

/-- Claim C6: evaluating the two-element list `(quote X)` returns the datum
`X` itself, unevaluated, in any environment of any store, leaving the store
untouched — in particular no lookup of any symbol inside `X` happens, so
quoting an unbound symbol succeeds (the statement holds for the empty store,
where every lookup would fail). -/
theorem quote_returns_argument_unevaluated (fuel : Nat) (x : SExpr) (env : Nat)
    (store : List Frame) :
    evaluate (fuel + 1) (.listE [.symE quoteName, x]) env store =
      .ok (.datum x, store) := rfl

/-- Claim C7: closures resolve free symbols in the defining environment, not
the calling one.  `f` is defined as the closure `(lambda () y)` built inside
a scope where `y` is bound to `n`; the call `(f)` happens at top level where
`y` is bound to `m`; the result is `n`, for every pair of values. -/
theorem closure_captures_defining_env (n m : ℤ) :
    runProgram 30 (c7Program n m) = .ok (.datum (.intE n)) := rfl

end Scheme
